import Mathlib

/-!
Verification development for the datacite-preprints-harvester repository.

The Python sources (src/datacite_preprint_harvester/harvest_datacite.py and
src/datacite_preprint_harvester/merge_parquets.py) are shallowly embedded
below: pure helpers become Lean functions, the stateful harvest pass becomes
an executable small-step trace over an explicit state type, and fallible
operations return Option/Except.  External collaborators (the HTTP API,
pyarrow, pandas, the filesystem) are modelled at their interface boundary as
explicit function parameters, so every embedded definition stays executable.
-/

namespace DataciteHarvester

/-- A Python scalar value as it occurs in the parameter dictionaries of
harvest_datacite.py: a string, an integer, or Python None. -/
inductive PyVal where
  | str (s : String)
  | int (n : Int)
  | pynone
deriving DecidableEq, Repr

/-- A Python dict of request parameters, as an insertion-ordered association
list (Python dicts preserve insertion order; keys are unique). -/
abbrev Params := List (String × PyVal)

/-- Python truthiness of an optional string: None and the empty string are
falsy, every other string is truthy. -/
def pyTruthyStr : Option String → Bool
  | none => false
  | some s => !(s == "")

/-- Python `x or default` for an optional string (used for `cursor or "1"`):
returns the default when the value is None or the empty string. -/
def pyOrStr (v : Option String) (d : String) : String :=
  match v with
  | none => d
  | some s => if s == "" then d else s

/-! ## Query signature (`_sig_dict`, `_sig_hash`, harvest_datacite.py:50-63) -/

/-- The filter-relevant keys kept by `_sig_dict` (harvest_datacite.py:52-58),
in the exact order they are listed in the source. -/
def sigKeepKeys : List String :=
  ["resource-type-id", "query",
   "from-registered-date", "until-registered-date",
   "from-created-date", "until-created-date",
   "from-updated-date", "until-updated-date",
   "client-id"]

/-- `_sig_dict` (harvest_datacite.py:50-59): project the parameter dict onto
the filter-relevant keys, skipping keys that are absent or map to None.  The
comprehension iterates over the keep-list, so the result order is fixed by
`sigKeepKeys`, not by the insertion order of the input dict. -/
def sigDict (d : Params) : List (String × PyVal) :=
  sigKeepKeys.filterMap (fun k =>
    match d.lookup k with
    | some v => if v = PyVal.pynone then none else some (k, v)
    | none => none)

/-- JSON rendering of one scalar, mirroring `json.dumps` with
ensure_ascii=False on the value types that actually occur in signature
dictionaries (strings without control characters, and integers). -/
def jsonOfVal : PyVal → String
  | PyVal.str s => "\"" ++ String.join (s.toList.map (fun c =>
      if c = '\"' then "\\\"" else if c = '\\' then "\\\\" else String.singleton c)) ++ "\""
  | PyVal.int n => toString n
  | PyVal.pynone => "null"

/-- Insertion of one entry into a key-sorted entry list (helper for the
`sort_keys=True` behaviour of `json.dumps` in `_sig_hash`). -/
def insertByKey (e : String × PyVal) : List (String × PyVal) → List (String × PyVal)
  | [] => [e]
  | f :: rest => if e.1 ≤ f.1 then e :: f :: rest else f :: insertByKey e rest

/-- Sort an entry list by key (the `sort_keys=True` of `json.dumps`). -/
def sortByKey : List (String × PyVal) → List (String × PyVal)
  | [] => []
  | e :: rest => insertByKey e (sortByKey rest)

/-- The serialized payload hashed by `_sig_hash` (harvest_datacite.py:61-63):
`json.dumps(d, sort_keys=True, ensure_ascii=False)` of the signature dict. -/
def sigPayload (entries : List (String × PyVal)) : String :=
  "\x7b" ++ String.intercalate ", "
    ((sortByKey entries).map (fun e => "\"" ++ e.1 ++ "\": " ++ jsonOfVal e.2)) ++ "\x7d"

/-- `_sig_hash` composed with `_sig_dict`: the digest of a parameter dict.
The SHA-1 truncation is a pure function of the payload; it is abstracted as
the parameter `h`, so every statement below holds for the real hash as a
special case. -/
def sigHash (h : String → String) (d : Params) : String :=
  h (sigPayload (sigDict d))

/-! ## `_build_params` (harvest_datacite.py:122-159) -/

/-- `_build_params` (harvest_datacite.py:122-159).  `today` stands for
`date.today().isoformat()`; the assertion on `rows` is modelled as an
`Except.error`.  Inputs that the source would receive as 1-tuples are already
plain optional strings here (`_as_str_or_none` then acts as the identity). -/
def buildParams (resource_type_id : Option String) (date_field : String)
    (date_start date_end : Option String) (client_id : Option String)
    (rows : Int) (cursor : Option String)
    (include_affiliation disable_facets : Bool) (query : Option String)
    (today : String) : Except String Params :=
  if 1 ≤ rows ∧ rows ≤ 1000 then
    let date_end' : Option String := match date_end with
      | none => some today
      | some d => some d
    let params : Params :=
      [("page[size]", PyVal.int rows), ("page[cursor]", PyVal.str (pyOrStr cursor "1"))]
    let params := params ++
      (match resource_type_id with
       | some r => if pyTruthyStr (some r) then [("resource-type-id", PyVal.str r)] else []
       | none => [])
    let params := params ++
      (match date_start with
       | some s => if pyTruthyStr (some s) then [("from-" ++ date_field ++ "-date", PyVal.str s)] else []
       | none => [])
    let params := params ++
      (match date_end' with
       | some s => if pyTruthyStr (some s) then [("until-" ++ date_field ++ "-date", PyVal.str s)] else []
       | none => [])
    let params := params ++
      (match client_id with
       | some c => if pyTruthyStr (some c) then [("client-id", PyVal.str c)] else []
       | none => [])
    let params := params ++ (if include_affiliation then [("affiliation", PyVal.str "true")] else [])
    let params := params ++ (if disable_facets then [("disable-facets", PyVal.str "true")] else [])
    let params := params ++
      (match query with
       | some q => if pyTruthyStr (some q) then [("query", PyVal.str q)] else []
       | none => [])
    Except.ok params
  else
    Except.error ("page[size] must be 1..1000")

/-! ## `_request_get` (harvest_datacite.py:100-118) -/

/-- Outcome of one HTTP attempt inside `_request_get`, as seen by the retry
loop: a 200 with a parsed body, a transient status (429/500/502/503/504), a
fatal status (any other non-200, which `raise_for_status` turns into an
`HTTPError`, itself a `RequestException`), or a network-level
`RequestException`.  Bodies and exceptions are indexed by naturals. -/
inductive AttemptResult where
  | ok (body : Nat)
  | transientStatus (code : Nat)
  | fatalStatus (code : Nat)
  | netExc (e : Nat)
deriving DecidableEq, Repr

/-- What a call to `_request_get` does in the end. -/
inductive ReqOutcome where
  | success (body : Nat)
  | raised (e : Nat)
  | returnedNone
deriving DecidableEq, Repr

/-- The retry loop of `_request_get` (harvest_datacite.py:106-117).  A 200
returns immediately; a transient status sleeps and continues WITHOUT touching
`last_exc`; a fatal status raises `HTTPError` which the `except
requests.RequestException` clause catches, recording it in `last_exc`; a
network exception is likewise recorded.  `attempt` is the loop index,
`remaining` the attempts left. -/
def requestGetLoop (responses : Nat → AttemptResult) :
    Nat → Nat → Option Nat → ReqOutcome
  | _, 0, lastExc =>
    -- after the loop (harvest_datacite.py:118): `if last_exc: raise last_exc`;
    -- with no recorded exception the function falls through and returns None
    match lastExc with
    | some e => ReqOutcome.raised e
    | none => ReqOutcome.returnedNone
  | attempt, remaining + 1, lastExc =>
    match responses attempt with
    | AttemptResult.ok body => ReqOutcome.success body
    | AttemptResult.transientStatus _ => requestGetLoop responses (attempt + 1) remaining lastExc
    | AttemptResult.fatalStatus code => requestGetLoop responses (attempt + 1) remaining (some code)
    | AttemptResult.netExc e => requestGetLoop responses (attempt + 1) remaining (some e)

/-- `_request_get` (harvest_datacite.py:100-118) with `retries` attempts,
starting with no recorded exception. -/
def requestGet (responses : Nat → AttemptResult) (retries : Nat) : ReqOutcome :=
  requestGetLoop responses 0 retries none

/-- Is an attempt outcome a transient condition in the sense of the spec
(HTTP 429/5xx or a network-level exception)? -/
def AttemptResult.isTransient : AttemptResult → Bool
  | AttemptResult.transientStatus _ => true
  | AttemptResult.netExc _ => true
  | _ => false

/-! ## Checkpoint resume decision (stream_datacite_with_resume, lines 276-288) -/

/-- A loaded checkpoint record `{signature, next_cursor, saved_at}`. -/
structure Checkpoint where
  signature : List (String × PyVal)
  next_cursor : Option String
  saved_at : String
deriving DecidableEq, Repr

/-- Python `==` on dicts: key sets agree and values agree key-wise;
insertion order is irrelevant. -/
def dictEq (d1 d2 : List (String × PyVal)) : Bool :=
  (d1.all (fun e => d2.lookup e.1 = d1.lookup e.1)) &&
  (d2.all (fun e => d1.lookup e.1 = d2.lookup e.1))

/-- The resume decision of `stream_datacite_with_resume`
(harvest_datacite.py:281-287).  Returns (resumed, effective start cursor).
`ckpt` is the result of `_load_checkpoint` (None on a missing or unreadable
file); `base` is the `page[cursor]` value already present in `base_params`
(None models an absent key, in which case `setdefault` installs "1").
Resume requires the stored signature to equal the current one under Python
dict equality and the stored `next_cursor` to be truthy (present and
non-empty).  On the fresh path `setdefault` keeps any pre-existing cursor. -/
def resolveStart (ckpt : Option Checkpoint) (sig : List (String × PyVal))
    (base : Option String) : Bool × String :=
  match ckpt with
  | some c =>
    if dictEq c.signature sig && pyTruthyStr c.next_cursor then
      (true, c.next_cursor.getD "1")
    else
      (false, base.getD "1")
  | none => (false, base.getD "1")

/-! ## One harvest pass: `stream_datacite_with_resume` interleaved with the
orchestrator's consumer loop (harvest_datacite.py:267-329 and 408-446)

The generator yields API items one at a time; the consumer maps each through
`_one_row_wide`, buffers the row, and flushes the buffer to a parquet chunk
when it reaches `incremental_every` rows.  The generator saves the checkpoint
for a page only when the consumer asks for the item after that page's last
item, i.e. after the whole page has been consumed and before the next page is
fetched.  The trace below lists the state after every atomic step in exactly
that interleaving, so crash-at-any-point properties quantify over the trace.
-/

/-- The API answer for one cursor: the `data` items of the page and the
cursor parsed from the `links.next` URL (None when the link is absent or the
cursor cannot be parsed out of it). -/
structure Page where
  items : List Nat
  next : Option String
deriving DecidableEq, Repr

/-- State of one harvest pass, as visible to a crash: everything fetched so
far, the items of the most recently fetched page, the volatile in-memory row
buffer, the parquet chunks flushed to disk, and the checkpoint file content
(`none` = no checkpoint written yet; `some c` = checkpoint on disk whose
`next_cursor` field is `c`). -/
structure PassState where
  fetched : List Nat
  lastPage : List Nat
  buffer : List Nat
  chunks : List (List Nat)
  ckpt : Option (Option String)
deriving DecidableEq, Repr

/-- How a pass run ended: the `while` loop saw no next cursor (the generator
finishes after having saved a checkpoint with a cleared cursor), a fetched
page was empty (`if not items: break`, harvest_datacite.py:316), or the model
ran out of fuel (the run is still in progress). -/
inductive TermKind where
  | doneNoNext
  | doneEmptyPage
  | fuelOut
deriving DecidableEq, Repr

/-- The initial state of a pass: nothing fetched, nothing buffered, nothing
flushed, no checkpoint written. -/
def initState : PassState :=
  { fetched := [], lastPage := [], buffer := [], chunks := [], ckpt := none }

/-- The orchestrator's periodic flush (harvest_datacite.py:415-429): once the
buffer holds at least `incrEvery` rows it is written out as a new chunk (only
when an incremental save directory is configured) and cleared.  With no save
directory the buffer is still cleared, so those rows survive only in the
final in-memory DataFrame. -/
def flushIfNeeded (incrEvery : Nat) (saveDir : Bool) (s : PassState) : PassState :=
  if incrEvery ≤ s.buffer.length then
    if saveDir then
      { s with chunks := s.chunks ++ [s.buffer], buffer := [] }
    else
      { s with buffer := [] }
  else s

/-- The consumer's handling of one yielded item (harvest_datacite.py:409-429):
map it through `_one_row_wide` (None = malformed, silently dropped), append
the row to the buffer, then run the periodic-flush check. -/
def consumeOne (rowMap : Nat → Option Nat) (incrEvery : Nat) (saveDir : Bool)
    (s : PassState) (it : Nat) : PassState :=
  let s' := match rowMap it with
    | some r => { s with buffer := s.buffer ++ [r] }
    | none => s
  flushIfNeeded incrEvery saveDir s'

/-- Consume all items of one page, returning the intermediate states (one per
item) and the final state. -/
def consumeItems (rowMap : Nat → Option Nat) (incrEvery : Nat) (saveDir : Bool)
    (s : PassState) : List Nat → List PassState × PassState
  | [] => ([], s)
  | it :: rest =>
    let s' := consumeOne rowMap incrEvery saveDir s it
    let res := consumeItems rowMap incrEvery saveDir s' rest
    (s' :: res.1, res.2)

/-- The end-of-pass flush (harvest_datacite.py:431-446): a non-empty
remainder buffer is written as one more chunk when a save directory is
configured.  The rows also flow into `all_rows` for the in-memory DataFrame,
so the buffer field is kept as is. -/
def finalFlush (saveDir : Bool) (s : PassState) : PassState :=
  if s.buffer.isEmpty then s
  else if saveDir then { s with chunks := s.chunks ++ [s.buffer] } else s

/-- Python truthiness of the loop cursor: `while next_cursor:` exits on both
None and the empty string, so a falsy cursor is normalized to `none`. -/
def truthyCursor : Option String → Option String
  | none => none
  | some c => if c == "" then none else some c

/-- The `while next_cursor:` loop of `stream_datacite_with_resume`
(harvest_datacite.py:312-326) followed by the consumer's final flush, with
`fuel` bounding the number of iterations.  `next` is the cursor saved in the
last checkpoint write (the loop runs only while it is truthy); an empty page
breaks out of the loop BEFORE any checkpoint is saved for it. -/
def runLoop (api : String → Page) (rowMap : Nat → Option Nat)
    (incrEvery : Nat) (saveDir : Bool) :
    Nat → Option String → PassState → List PassState × PassState × TermKind
  | 0, next, s =>
    (match truthyCursor next with
     | none => ([finalFlush saveDir s], finalFlush saveDir s, TermKind.doneNoNext)
     | some _ => ([], s, TermKind.fuelOut))
  | fuel + 1, next, s =>
    (match truthyCursor next with
     | none => ([finalFlush saveDir s], finalFlush saveDir s, TermKind.doneNoNext)
     | some c =>
       let p := api c
       let s1 := { s with fetched := s.fetched ++ p.items, lastPage := p.items }
       if p.items.isEmpty then
         ([s1, finalFlush saveDir s1], finalFlush saveDir s1, TermKind.doneEmptyPage)
       else
         let res := consumeItems rowMap incrEvery saveDir s1 p.items
         let s3 := { res.2 with ckpt := some p.next }
         let rest := runLoop api rowMap incrEvery saveDir fuel p.next s3
         (s1 :: (res.1 ++ [s3] ++ rest.1), rest.2.1, rest.2.2))

/-- One whole harvest pass from `start` (the resolved start cursor): fetch
the first page (no emptiness check there), consume it, save the first
checkpoint, then enter the loop.  Returns the full trace of states, the
final state and how the run ended. -/
def runPass (api : String → Page) (rowMap : Nat → Option Nat)
    (incrEvery : Nat) (saveDir : Bool) (start : String) (fuel : Nat) :
    List PassState × PassState × TermKind :=
  let p := api start
  let s1 := { initState with fetched := p.items, lastPage := p.items }
  let res := consumeItems rowMap incrEvery saveDir s1 p.items
  let s3 := { res.2 with ckpt := some p.next }
  let rest := runLoop api rowMap incrEvery saveDir fuel p.next s3
  (initState :: s1 :: (res.1 ++ [s3] ++ rest.1), rest.2.1, rest.2.2)

/-- Rows obtained from a list of API items through the row mapping. -/
def rowsOf (rowMap : Nat → Option Nat) (items : List Nat) : List Nat :=
  items.filterMap rowMap

/-- The rows durable on disk in a state: the flushed chunks. -/
def durableRows (s : PassState) : List Nat :=
  s.chunks.flatten

/-- All items reachable from a cursor in at most `n` page fetches. -/
def reachItems (api : String → Page) : Nat → String → List Nat
  | 0, _ => []
  | n + 1, c =>
    let p := api c
    p.items ++ (match p.next with
      | some c' => reachItems api n c'
      | none => [])

/-- The cursor a rerun of the same pass would start from given the on-disk
checkpoint state: a saved checkpoint with a truthy cursor is honored
(signatures match by construction within one pass), anything else (no
checkpoint, or a cleared cursor) restarts from the pass's base cursor. -/
def rerunCursor (base : String) : Option (Option String) → String
  | some nc =>
    (match truthyCursor nc with
     | some c => c
     | none => base)
  | none => base

/-- A row is re-fetchable after a crash in state `s`: some number of page
fetches starting from the rerun cursor reaches an item that maps to it. -/
def Refetchable (api : String → Page) (rowMap : Nat → Option Nat)
    (base : String) (s : PassState) (r : Nat) : Prop :=
  ∃ n, r ∈ rowsOf rowMap (reachItems api n (rerunCursor base s.ckpt))

/-- Formalization of claim C2 as stated: at every point of the pass, every
fetched row that is neither durable nor re-fetchable from the saved
checkpoint lies in the most recently fetched page. -/
def LossBoundedByLastPage (api : String → Page) (rowMap : Nat → Option Nat)
    (incrEvery : Nat) (saveDir : Bool) (start : String) (fuel : Nat) : Prop :=
  ∀ s ∈ (runPass api rowMap incrEvery saveDir start fuel).1,
    ∀ r ∈ rowsOf rowMap s.fetched,
      r ∉ durableRows s →
      ¬ Refetchable api rowMap start s r →
      r ∈ rowsOf rowMap s.lastPage

/-! ## Shard discovery (`discover_parquet_files`, merge_parquets.py:50-84) -/

/-- One discovered shard record (merge_parquets.py:79-83). -/
structure ShardRec where
  folder : String
  filepath : String
  filename : String
deriving DecidableEq, Repr

/-- The filesystem as `discover_parquet_files` sees it: `pathExists` is
`os.path.exists`, `childDirs parent` is the already-joined list of immediate
child directories (`os.listdir` filtered by `os.path.isdir`), `globParquet
folder` is `glob.iglob(folder/**/*.parquet, recursive=True)` in glob order,
and `norm` is `os.path.normpath(os.path.expanduser(...))`. -/
structure FS where
  pathExists : String → Bool
  childDirs : String → List String
  globParquet : String → List String
  norm : String → String

/-- `os.path.basename`: the part of the path after the last slash. -/
def pyBasename (p : String) : String :=
  match (p.splitOn "/").getLast? with
  | some b => b
  | none => p

/-- Python `needle in hay` on strings: substring containment. -/
def strContains (hay needle : String) : Bool :=
  (List.range (hay.toList.length + 1)).any (fun i =>
    (hay.toList.drop i).take needle.toList.length == needle.toList)

/-- The inner loop over one folder's glob results (merge_parquets.py:69-83):
normalize the path, skip it if already seen, mark it seen, then drop it if
the filename filter excludes it, otherwise append a record.  The state is
(records so far, seen set). -/
def discoverPaths (fs : FS) (nameContains : String) (folder : String) :
    List String → List ShardRec × List String → List ShardRec × List String
  | [], st => st
  | fp0 :: rest, st =>
    let fpath := fs.norm fp0
    if fpath ∈ st.2 then
      discoverPaths fs nameContains folder rest st
    else
      let seen := fpath :: st.2
      let fname := pyBasename fpath
      if nameContains ≠ "" ∧ ¬ strContains fname nameContains then
        discoverPaths fs nameContains folder rest (st.1, seen)
      else
        discoverPaths fs nameContains folder rest
          (st.1 ++ [{ folder := folder, filepath := fpath, filename := fname }], seen)

/-- Loop over the folders of one parent (the parent itself, then each
immediate child when `one_level_deep`). -/
def discoverFolders (fs : FS) (nameContains : String) :
    List String → List ShardRec × List String → List ShardRec × List String
  | [], st => st
  | folder :: rest, st =>
    discoverFolders fs nameContains rest
      (discoverPaths fs nameContains folder (fs.globParquet folder) st)

/-- Processing of one parent directory (merge_parquets.py:52-83): a missing
parent is skipped with a warning; otherwise its folder list is walked with a
FRESH `seen` set (the `seen = set()` on line 66 sits inside the parent
loop). -/
def discoverParent (fs : FS) (nameContains : String) (oneLevelDeep : Bool)
    (parent0 : String) : List ShardRec :=
  let parent := fs.norm parent0
  if fs.pathExists parent then
    let folders := parent :: (if oneLevelDeep then fs.childDirs parent else [])
    (discoverFolders fs nameContains folders ([], [])).1
  else []

/-- `discover_parquet_files` (merge_parquets.py:50-84): concatenation of the
per-parent record lists. -/
def discoverParquetFiles (fs : FS) (parents : List String)
    (nameContains : String) (oneLevelDeep : Bool) : List ShardRec :=
  (parents.map (discoverParent fs nameContains oneLevelDeep)).flatten

/-! ## Schema unification (`_collect_unified_schema`, merge_parquets.py:86-104) -/

/-- An arrow column type, as far as the merge engine distinguishes them. -/
inductive PType where
  | null
  | int64
  | float64
  | string
  | other (tag : Nat)
deriving DecidableEq, Repr

/-- One arrow schema field. -/
structure PField where
  name : String
  typ : PType
deriving DecidableEq, Repr

/-- An arrow schema: its field list. -/
abbrev PSchema := List PField

/-- The score special-case of `_collect_unified_schema`
(merge_parquets.py:93-100): when a field named "score" exists with a type
other than float64, every "score" field is rewritten to float64. -/
def scoreAlign (s : PSchema) : PSchema :=
  match s.find? (fun f => f.name == "score") with
  | some f =>
    if f.typ ≠ PType.float64 then
      s.map (fun g => if g.name == "score" then { name := "score", typ := PType.float64 } else g)
    else s
  | none => s

/-- Model of `pyarrow.unify_schemas` merging one field into the accumulated
schema (default promotion): a new name is appended, an equal type is merged
silently, a null-typed field unifies with any type, and any other type
mismatch fails unification.  Fields keep the order in which their names were
first seen. -/
def mergeFieldInto (acc : PSchema) (f : PField) : Except String PSchema :=
  match acc.find? (fun g => g.name == f.name) with
  | none => Except.ok (acc ++ [f])
  | some g =>
    if g.typ = f.typ then Except.ok acc
    else if g.typ = PType.null then
      Except.ok (acc.map (fun h => if h.name == f.name then f else h))
    else if f.typ = PType.null then Except.ok acc
    else Except.error ("Unable to merge: Field " ++ f.name ++ " has incompatible types")

/-- Model of `pyarrow.unify_schemas` over a schema list. -/
def unifySchemas (ss : List PSchema) : Except String PSchema :=
  ss.flatten.foldlM mergeFieldInto []

/-- The schema-collection loop of `_collect_unified_schema`
(merge_parquets.py:87-103): read each shard's schema (`readSchema p = none`
models the per-shard exception, logged and skipped) and apply the score
alignment. -/
def schemasOf (readSchema : String → Option PSchema) (paths : List String) :
    List PSchema :=
  paths.filterMap (fun p => (readSchema p).map scoreAlign)

/-- `_collect_unified_schema`, continued: unify the readable (score-aligned)
schemas, or return the empty schema when none is readable. -/
def collectUnifiedSchema (readSchema : String → Option PSchema)
    (paths : List String) : Except String PSchema :=
  let schemas := schemasOf readSchema paths
  if schemas.isEmpty then Except.ok [] else unifySchemas schemas

/-! ## Table alignment and the merge writer (merge_parquets.py:106-210) -/

/-- One arrow column: its name, type, and cell values (length = row count). -/
structure PCol where
  name : String
  typ : PType
  vals : List PyVal
deriving DecidableEq, Repr

/-- An arrow table: columns plus its row count. -/
structure PTable where
  cols : List PCol
  nrows : Nat
deriving DecidableEq, Repr

/-- `_align_table_to_schema` (merge_parquets.py:106-119): for each unified
field take the table's column when present — attempting a cast when the types
differ, keeping the original column when the cast raises (`except: pass`) —
and otherwise synthesize an all-null column of the right length.  The cast
semantics of `pa.compute.cast` is the external parameter `castFn` (`none`
models a raised cast error). -/
def alignTableToSchema (castFn : PCol → PType → Option PCol)
    (tbl : PTable) (schema : PSchema) : PTable :=
  let cols := schema.map (fun f =>
    match tbl.cols.find? (fun c => c.name == f.name) with
    | some col =>
      if col.typ ≠ f.typ then
        match castFn col f.typ with
        | some col' => col'
        | none => col
      else col
    | none => { name := f.name, typ := f.typ, vals := List.replicate tbl.nrows PyVal.pynone })
  { cols := cols, nrows := tbl.nrows }

/-- The external collaborators of `merge_parquets`: the filesystem for
discovery, the parquet schema/table readers (None = the per-shard exception),
the cast function, whether `ParquetWriter` construction succeeds, whether
`writer.write_table` succeeds on a given table, whether the final
`os.replace` succeeds, and the timestamp used in output names. -/
structure MergeEnv where
  fs : FS
  readSchema : String → Option PSchema
  readTable : String → Option PTable
  castFn : PCol → PType → Option PCol
  writerOpens : Bool
  writeOk : PTable → Bool
  renameOk : Bool
  stamp : String

/-- The report dict returned by `merge_parquets` (merge_parquets.py:204-210). -/
structure MergeReport where
  parquet : Option String
  pkl : Option String
  output_dir : String
  rows_written : Nat
  inputs : List String
deriving DecidableEq, Repr

/-- The observable outcome of a merge: the returned report, the tables the
parquet writer received (in order), and the unified schema the run used. -/
structure MergeOutcome where
  report : MergeReport
  written : List PTable
  uschema : PSchema
deriving DecidableEq, Repr

/-- The per-shard step of the merge loop (merge_parquets.py:162-170): an
unreadable shard is skipped; a readable one is aligned, then written when the
writer is open (a write failure raises inside the try, skipping the row-count
update for that shard), and its row count is added AFTER the write. -/
def mergeStep (env : MergeEnv) (uschema : PSchema)
    (acc : Nat × List PTable) (p : String) : Nat × List PTable :=
  match env.readTable p with
  | none => acc
  | some tbl =>
    let tbl := alignTableToSchema env.castFn tbl uschema
    if env.writerOpens then
      if env.writeOk tbl then (acc.1 + tbl.nrows, acc.2 ++ [tbl])
      else acc
    else (acc.1 + tbl.nrows, acc.2)

/-- `merge_parquets` (merge_parquets.py:122-210): discover shards (no shard
at all is the fatal precondition), collect the unified schema (empty schema
is the second fatal precondition), stream every shard through alignment into
the writer while accumulating `total_rows_written`, then finalize the
temporary file via `os.replace`; the parquet path is reported only when the
writer opened and the rename succeeded, while `rows_written` and `inputs`
are reported unconditionally. -/
def mergeParquets (env : MergeEnv) (inputParentDirs : List String)
    (outputDir mergedBasename nameContains : String)
    (oneLevelDeep writePklToo : Bool) : Except String MergeOutcome :=
  let recs := discoverParquetFiles env.fs inputParentDirs nameContains oneLevelDeep
  if recs.isEmpty then
    Except.error ("No .parquet files found under the provided parent directories.")
  else
    let allPaths := recs.map (fun r => r.filepath)
    match collectUnifiedSchema env.readSchema allPaths with
    | Except.error e => Except.error e
    | Except.ok uschema =>
      if uschema.length = 0 then
        Except.error ("Could not determine a unified schema from the shards.")
      else
        let outParquet := outputDir ++ "/" ++ mergedBasename ++ "_" ++ env.stamp ++ ".parquet"
        let outPkl := outputDir ++ "/" ++ mergedBasename ++ "_" ++ env.stamp ++ ".pkl"
        let (total, written) := allPaths.foldl (mergeStep env uschema) (0, [])
        let parquetOk := env.writerOpens && env.renameOk
        Except.ok
          { report :=
              { parquet := if parquetOk then some outParquet else none
                pkl := if writePklToo && parquetOk then some outPkl else none
                output_dir := outputDir
                rows_written := total
                inputs := allPaths }
            written := written
            uschema := uschema }

/-! ## The harvester's DOI deduplication (harvest_datacite.py:460-471)

`merge_parquets` itself never deduplicates; the richness-ranked
`drop_duplicates` by DOI runs on the consolidated DataFrame at the end of
`harvest_datacite_preprints_dataframe`.  Rows are modelled by the columns
that pass reads: the DOI, the two richness signals, and the three date
fields (pandas NaN becomes `Option.none`). -/

/-- One DataFrame row, restricted to the columns the deduplication reads. -/
structure HRow where
  doi : Option String
  provider_id : Option String
  alternate_ids_json : Option String
  registered : Option String
  updated : Option String
  created : Option String
deriving DecidableEq, Repr

/-- The `_rich` column (harvest_datacite.py:463-466): the count of non-null
values among `provider_id` and `alternate_ids_json`. -/
def richScore (r : HRow) : Nat :=
  (if r.provider_id.isSome then 1 else 0) +
  (if r.alternate_ids_json.isSome then 1 else 0)

/-- Ascending comparison of one optional sort key with `na_position="last"`:
missing values order after every present value. -/
def cmpOptAsc (a b : Option String) : Ordering :=
  match a, b with
  | none, none => Ordering.eq
  | none, some _ => Ordering.gt
  | some _, none => Ordering.lt
  | some x, some y => compare x y

/-- The sort key of `df_final.sort_values(["_rich", "registered", "updated",
"created"], ascending=[False, True, True, True], na_position="last")`:
richness descending, then the three date fields ascending with missing values
last. -/
def rowCmp (a b : HRow) : Ordering :=
  (compare (richScore b) (richScore a)).then
    ((cmpOptAsc a.registered b.registered).then
      ((cmpOptAsc a.updated b.updated).then (cmpOptAsc a.created b.created)))

/-- Boolean order used to sort rows (total: `rowCmp` never returns an
unordered result). -/
def rowLE (a b : HRow) : Bool :=
  rowCmp a b ≠ Ordering.gt

/-- Insertion step of the row sort. -/
def insertRow (r : HRow) : List HRow → List HRow
  | [] => [r]
  | q :: rest => if rowLE r q then r :: q :: rest else q :: insertRow r rest

/-- The row sort.  pandas uses an unstable quicksort; any comparison sort
agrees with this insertion sort except on rows whose whole sort key ties, and
the theorems below never depend on tie order. -/
def sortRows : List HRow → List HRow
  | [] => []
  | r :: rest => insertRow r (sortRows rest)

/-- `drop_duplicates(subset=["doi"], keep="first")`: keep the first row of
each DOI (pandas treats NaN keys as equal, as does `Option.none` here). -/
def dropDupFirstByDoi (rows : List HRow) : List HRow :=
  rows.foldl (fun acc r => if acc.any (fun q => q.doi == r.doi) then acc else acc ++ [r]) []

/-- The deduplication block of `harvest_datacite_preprints_dataframe`
(harvest_datacite.py:460-471): rank by `_rich`, sort by richness descending
then dates ascending with missing last, and keep the first row per DOI. -/
def dedupByDoi (rows : List HRow) : List HRow :=
  dropDupFirstByDoi (sortRows rows)

/-! ## Theorems -/

/-- C3: the claim says that when every attempt up to the retry ceiling fails
with a transient condition, `_request_get` raises the last transient error.
The code contradicts both the claim and its own `-> Dict[str, Any]` return
annotation: a transient HTTP status (429/5xx) sleeps and continues WITHOUT
recording anything in `last_exc` (harvest_datacite.py:111-112), so when all
six attempts end in transient statuses the final `if last_exc: raise
last_exc` does not fire and the function silently returns None.  This
evaluates the embedded `_request_get` at that failing input. -/
theorem C3_all_transient_statuses_return_none :
    (AttemptResult.transientStatus 503).isTransient = true ∧
    requestGet (fun _ => AttemptResult.transientStatus 503) 6 = ReqOutcome.returnedNone := by
  decide

/-- C5 counterexample: with no stored checkpoint and a base cursor "42"
already present in the parameters (the orchestrator puts `start_cursor or
"1"` there, harvest_datacite.py:393), the fresh path keeps "42" via
`setdefault` (harvest_datacite.py:287) instead of resetting to the initial
sentinel "1", refuting "in every other case the pass starts from the initial
cursor sentinel". -/
theorem C5_counterexample :
    (resolveStart none [] (some "42")).1 = false ∧
    (resolveStart none [] (some "42")).2 ≠ "1" := by
  decide

/-- C5 amended: the pass resumes from the stored cursor iff the stored
signature equals the current one and the stored next_cursor is present and
non-empty; in every other case the pass keeps the cursor already present in
the base parameters (falling back to the sentinel "1" only when no cursor
key is present at all). -/
theorem C5_resume_iff_signature_and_cursor :
    ∀ (ckpt : Option Checkpoint) (sig : List (String × PyVal)) (base : Option String),
      ((resolveStart ckpt sig base).1 = true ↔
        ∃ c, ckpt = some c ∧ dictEq c.signature sig = true ∧
          ∃ s, c.next_cursor = some s ∧ s ≠ "") ∧
      (∀ c s, ckpt = some c → c.next_cursor = some s → s ≠ "" →
        dictEq c.signature sig = true → (resolveStart ckpt sig base).2 = s) ∧
      ((resolveStart ckpt sig base).1 = false →
        (resolveStart ckpt sig base).2 = base.getD "1") := by
  intro ckpt sig base
  cases ckpt with
  | none =>
    refine ⟨by simp [resolveStart], ?_, by intro _; simp [resolveStart]⟩
    intro c s hc
    exact absurd hc (by simp)
  | some c =>
    by_cases hcond : (dictEq c.signature sig && pyTruthyStr c.next_cursor) = true
    · obtain ⟨hd, ht⟩ := Bool.and_eq_true_iff.mp hcond
      cases hnc : c.next_cursor with
      | none => rw [hnc] at ht; exact absurd ht (by simp [pyTruthyStr])
      | some s =>
        rw [hnc] at ht
        have hne : s ≠ "" := by
          intro he
          rw [he] at ht
          exact absurd ht (by simp [pyTruthyStr])
        refine ⟨?_, ?_, ?_⟩
        · constructor
          · intro _
            exact ⟨c, rfl, hd, s, hnc, hne⟩
          · intro _
            simp [resolveStart, hcond]
        · intro c' s' hc' hnc' _ _
          have hcc : c' = c := by injection hc' with h; exact h.symm
          subst hcc
          rw [hnc] at hnc'
          injection hnc' with h
          subst h
          simp [resolveStart, hnc, hd, ht]
        · intro hfalse
          simp [resolveStart, hcond] at hfalse
    · have hcond' : (dictEq c.signature sig && pyTruthyStr c.next_cursor) = false :=
        Bool.not_eq_true _ ▸ Bool.of_not_eq_true hcond
      refine ⟨?_, ?_, ?_⟩
      · constructor
        · intro h
          simp [resolveStart, hcond'] at h
        · rintro ⟨c', hc', hd, s, hnc, hne⟩
          have hcc : c' = c := by injection hc' with h; exact h.symm
          subst hcc
          have : (dictEq c'.signature sig && pyTruthyStr c'.next_cursor) = true := by
            rw [hnc]
            simp [pyTruthyStr, hd, hne]
          exact absurd this (by rw [hcond']; simp)
      · intro c' s' hc' hnc' hne hd
        have hcc : c' = c := by injection hc' with h; exact h.symm
        subst hcc
        have : (dictEq c'.signature sig && pyTruthyStr c'.next_cursor) = true := by
          rw [hnc']
          simp [pyTruthyStr, hd, hne]
        exact absurd this (by rw [hcond']; simp)
      · intro _
        simp [resolveStart, hcond']

/-- A concrete signature dict for witnesses. -/
def sigW : List (String × PyVal) := [("query", PyVal.str "q")]

/-- A concrete checkpoint whose signature matches `sigW`. -/
def ckptW : Checkpoint :=
  { signature := sigW, next_cursor := some "c9", saved_at := "2024-01-01T00:00:00+00:00" }

/-- Witness for C5: a matching checkpoint with cursor "c9" resumes at "c9";
a missing checkpoint with base cursor "42" starts at "42". -/
theorem C5_resume_iff_signature_and_cursor_witness :
    (resolveStart (some ckptW) sigW none).2 = "c9" ∧
    (resolveStart none sigW (some "42")).2 = "42" := by
  constructor
  · exact (C5_resume_iff_signature_and_cursor (some ckptW) sigW none).2.1 ckptW "c9"
      rfl rfl (by decide) (by decide)
  · exact (C5_resume_iff_signature_and_cursor none sigW (some "42")).2.2 rfl

/-- C6: the signature digest depends only on the lookup values of the
filter-relevant keys kept by `_sig_dict` — two parameter dicts agreeing on
those keys give the same digest whatever their insertion order and whatever
`page[cursor]` and `page[size]` hold, and the digest is a pure function of
the dict, hence stable across invocations.  `h` abstracts the (pure)
truncated SHA-1 of `_sig_hash`. -/
theorem C6_signature_order_independent (h : String → String) (d1 d2 : Params)
    (hk : ∀ k ∈ sigKeepKeys, d1.lookup k = d2.lookup k) :
    sigHash h d1 = sigHash h d2 := by
  have hd : sigDict d1 = sigDict d2 := by
    unfold sigDict
    apply List.filterMap_congr
    intro k hkk
    rw [hk k hkk]
  unfold sigHash
  rw [hd]

/-- Witness for C6: two dicts in different insertion orders with different
pagination values but identical filter-relevant entries hash alike. -/
theorem C6_signature_order_independent_witness :
    sigHash (fun s => s)
        [("query", PyVal.str "q"), ("client-id", PyVal.str "a.b"),
         ("page[cursor]", PyVal.str "7"), ("page[size]", PyVal.int 100)] =
      sigHash (fun s => s)
        [("page[size]", PyVal.int 1000), ("client-id", PyVal.str "a.b"),
         ("query", PyVal.str "q")] :=
  C6_signature_order_independent (fun s => s) _ _ (by decide)

/-- Helper: strings whose first characters differ are different. -/
theorem ne_of_head_data {a b : String} (h : a.data.head? ≠ b.data.head?) : a ≠ b :=
  fun e => h (congrArg (fun s => s.data.head?) e)

/-- Helper: lookup skips an association-list prefix none of whose keys
matches. -/
theorem lookup_append_skip (k : String) :
    ∀ (l1 l2 : List (String × PyVal)), (∀ e ∈ l1, (k == e.1) = false) →
      (l1 ++ l2).lookup k = l2.lookup k := by
  intro l1
  induction l1 with
  | nil => intro l2 _; rfl
  | cons e rest ih =>
    intro l2 hne
    have h1 : (k == e.1) = false := hne e (List.mem_cons_self e rest)
    simp only [List.cons_append, List.lookup, h1]
    exact ih l2 (fun f hf => hne f (List.mem_cons_of_mem e hf))

/-- Helper: the until-date key built by `_build_params` differs from every
key inserted before it, whatever the date field is. -/
theorem untilKey_ne (f : String) :
    ("until-" ++ f ++ "-date") ≠ "page[size]" ∧
    ("until-" ++ f ++ "-date") ≠ "page[cursor]" ∧
    ("until-" ++ f ++ "-date") ≠ "resource-type-id" ∧
    ("until-" ++ f ++ "-date") ≠ ("from-" ++ f ++ "-date") := by
  refine ⟨?_, ?_, ?_, ?_⟩ <;>
    · apply ne_of_head_data
      simp [String.data_append]

/-- C9: `_build_params` (harvest_datacite.py:122-159) rejects any `rows`
outside 1..1000 via its assertion; under that precondition it returns a dict
with `page[size] = rows`, a non-null `page[cursor]` equal to `cursor or "1"`
(hence "1" when the cursor argument is None), and when `date_end` is None it
substitutes today's date into the until-date bound.  `today` models
`date.today().isoformat()` and is never empty. -/
theorem C9_buildParams_contract (rtid : Option String) (date_field : String)
    (date_start date_end : Option String) (client_id : Option String)
    (rows : Int) (cursor : Option String) (ia dfb : Bool) (query : Option String)
    (today : String) (htoday : today ≠ "") :
    (¬ (1 ≤ rows ∧ rows ≤ 1000) →
      buildParams rtid date_field date_start date_end client_id rows cursor ia dfb query today
        = Except.error ("page[size] must be 1..1000")) ∧
    ((1 ≤ rows ∧ rows ≤ 1000) →
      ∃ ps, buildParams rtid date_field date_start date_end client_id rows cursor ia dfb query today
          = Except.ok ps ∧
        ps.lookup "page[size]" = some (PyVal.int rows) ∧
        ps.lookup "page[cursor]" = some (PyVal.str (pyOrStr cursor "1")) ∧
        (cursor = none → pyOrStr cursor "1" = "1") ∧
        (date_end = none →
          ps.lookup ("until-" ++ date_field ++ "-date") = some (PyVal.str today))) := by
  constructor
  · intro hno
    unfold buildParams
    rw [if_neg hno]
  · intro h12
    unfold buildParams
    rw [if_pos h12]
    refine ⟨_, rfl, ?_, ?_, ?_, ?_⟩
    · simp [List.lookup]
    · simp [List.lookup]
    · intro hc
      rw [hc]
      rfl
    · intro hde
      subst hde
      obtain ⟨h1, h2, h3, h4⟩ := untilKey_ne date_field
      have e1 : (("until-" ++ date_field ++ "-date") == "page[size]") = false :=
        beq_eq_false_iff_ne.mpr h1
      have e2 : (("until-" ++ date_field ++ "-date") == "page[cursor]") = false :=
        beq_eq_false_iff_ne.mpr h2
      simp only [List.append_assoc, List.cons_append, List.nil_append]
      simp only [List.lookup, e1, e2]
      rw [lookup_append_skip _ _ _ ?hB]
      case hB =>
        intro e he
        cases rtid with
        | none => simp at he
        | some r =>
          by_cases hr : pyTruthyStr (some r) = true
          · simp only [hr, if_true, List.mem_singleton] at he
            rw [he]
            exact beq_eq_false_iff_ne.mpr h3
          · rw [Bool.not_eq_true] at hr
            simp [hr] at he
      rw [lookup_append_skip _ _ _ ?hC]
      case hC =>
        intro e he
        cases date_start with
        | none => simp at he
        | some s =>
          by_cases hs : pyTruthyStr (some s) = true
          · simp only [hs, if_true, List.mem_singleton] at he
            rw [he]
            exact beq_eq_false_iff_ne.mpr h4
          · rw [Bool.not_eq_true] at hs
            simp [hs] at he
      have htt : pyTruthyStr (some today) = true := by
        have hb : (today == "") = false := beq_eq_false_iff_ne.mpr htoday
        simp [pyTruthyStr, hb]
      simp only [htt, if_true, List.cons_append, List.lookup, beq_self_eq_true]

/-- Witness for C9: at rows = 1000, no cursor, no date_end, the assertion
passes, page[size] is 1000, page[cursor] defaults to "1", and the until
bound carries today's stand-in date; at rows = 0 the assertion fires. -/
theorem C9_buildParams_contract_witness :
    (buildParams (some "Preprint") "registered" (some "2000-01-01") none none 0 none
        false true none "2025-10-12" = Except.error ("page[size] must be 1..1000")) ∧
    ∃ ps, buildParams (some "Preprint") "registered" (some "2000-01-01") none none 1000 none
        false true none "2025-10-12" = Except.ok ps ∧
      ps.lookup "page[size]" = some (PyVal.int 1000) ∧
      ps.lookup "page[cursor]" = some (PyVal.str "1") ∧
      ps.lookup "until-registered-date" = some (PyVal.str "2025-10-12") := by
  constructor
  · exact (C9_buildParams_contract (some "Preprint") "registered" (some "2000-01-01") none none
      0 none false true none "2025-10-12" (by decide)).1 (by decide)
  · obtain ⟨ps, hok, hsz, hcur, hdef, huntil⟩ :=
      (C9_buildParams_contract (some "Preprint") "registered" (some "2000-01-01") none none
        1000 none false true none "2025-10-12" (by decide)).2 (by decide)
    refine ⟨ps, hok, hsz, ?_, huntil rfl⟩
    rw [hcur]
    rfl

/-- Helper: the end-of-pass flush never touches the checkpoint field. -/
theorem finalFlush_ckpt (sd : Bool) (s : PassState) : (finalFlush sd s).ckpt = s.ckpt := by
  unfold finalFlush
  split
  · rfl
  · split <;> rfl

/-- Helper: a non-empty-string cursor whose truthy form is `none` is `none`. -/
theorem cursor_none_of_truthy_none {next : Option String}
    (hn : truthyCursor next = none) (hne : next ≠ some "") : next = none := by
  cases next with
  | none => rfl
  | some c =>
    exfalso
    simp only [truthyCursor] at hn
    by_cases hc : (c == "") = true
    · exact hne (congrArg some (eq_of_beq hc))
    · rw [Bool.not_eq_true] at hc
      rw [hc] at hn
      simp at hn

/-- Helper: when the loop of `stream_datacite_with_resume` terminates because
the cursor chain ends (no truthy next cursor), the last saved checkpoint has
a cleared cursor — provided the checkpoint entering the loop matches the
loop cursor and no parsed cursor is the empty string. -/
theorem runLoop_doneNoNext_ckpt (api : String → Page) (rm : Nat → Option Nat)
    (N : Nat) (sd : Bool) (happi : ∀ c, (api c).next ≠ some "") :
    ∀ (fuel : Nat) (next : Option String) (s : PassState), s.ckpt = some next →
      next ≠ some "" →
      (runLoop api rm N sd fuel next s).2.2 = TermKind.doneNoNext →
      (runLoop api rm N sd fuel next s).2.1.ckpt = some none := by
  intro fuel
  induction fuel with
  | zero =>
    intro next s hck hne hdone
    simp only [runLoop] at hdone ⊢
    cases hn : truthyCursor next with
    | none =>
      show (finalFlush sd s).ckpt = some none
      rw [finalFlush_ckpt, hck, cursor_none_of_truthy_none hn hne]
    | some c =>
      rw [hn] at hdone
      simp at hdone
  | succ fuel ih =>
    intro next s hck hne hdone
    simp only [runLoop] at hdone ⊢
    cases hn : truthyCursor next with
    | none =>
      show (finalFlush sd s).ckpt = some none
      rw [finalFlush_ckpt, hck, cursor_none_of_truthy_none hn hne]
    | some c =>
      rw [hn] at hdone
      by_cases hemp : ((api c).items.isEmpty) = true
      · simp only [hemp, if_true] at hdone
        simp at hdone
      · simp only [hemp, Bool.false_eq_true, if_false] at hdone ⊢
        exact ih (api c).next _ rfl (happi c) hdone

/-- C4 counterexample: with a first page pointing at cursor "c2" and an
EMPTY second page, the pass reaches its terminal condition (empty page) but
the `break` on harvest_datacite.py:316 exits the loop BEFORE any checkpoint
is saved for that page, so the last saved checkpoint still carries
next_cursor "c2" — not a cleared cursor as the claim states. -/
def apiC4 : String → Page := fun c =>
  if c = "1" then { items := [10], next := some "c2" }
  else { items := [], next := none }

/-- C4 counterexample theorem: the pass below terminates (not a fuel-out) by
the empty-page condition, yet its final checkpoint cursor is "c2", not
cleared. -/
theorem C4_counterexample :
    (runPass apiC4 some 10 true "1" 5).2.2 = TermKind.doneEmptyPage ∧
    (runPass apiC4 some 10 true "1" 5).2.1.ckpt ≠ some none ∧
    (runPass apiC4 some 10 true "1" 5).2.1.ckpt = some (some "c2") := by
  decide

/-- C4 amended: only termination through an absent (non-truthy) next link
ends the pass with the checkpoint cursor cleared; an empty non-first page
breaks out before saving, leaving the previously saved cursor in place (see
the counterexample).  Moreover a cleared-cursor checkpoint is NOT honored as
a resume point on the next run — the `ckpt.get("next_cursor")` truthiness
test fails, so the rerun starts fresh rather than "as a completed pass". -/
theorem C4_terminal_cursor_cleared :
    (∀ (api : String → Page) (rm : Nat → Option Nat) (N : Nat) (sd : Bool)
        (start : String) (fuel : Nat), (∀ c, (api c).next ≠ some "") →
      (runPass api rm N sd start fuel).2.2 = TermKind.doneNoNext →
      (runPass api rm N sd start fuel).2.1.ckpt = some none) ∧
    (∀ (sig : List (String × PyVal)) (base : Option String) (t : String),
      (resolveStart (some { signature := sig, next_cursor := none, saved_at := t })
        sig base).1 = false) := by
  constructor
  · intro api rm N sd start fuel happi hdone
    unfold runPass at hdone ⊢
    exact runLoop_doneNoNext_ckpt api rm N sd happi fuel (api start).next _ rfl
      (happi start) hdone
  · intro sig base t
    simp [resolveStart, pyTruthyStr]

/-- A one-page API for the C4 witness: its only page has no next link. -/
def apiW4 : String → Page := fun _ => { items := [10], next := none }

/-- Witness for C4: a pass over `apiW4` ends by the absent-next-link
condition and its final checkpoint cursor is cleared; a cleared-cursor
checkpoint is not resumed from. -/
theorem C4_terminal_cursor_cleared_witness :
    (runPass apiW4 some 10 true "1" 5).2.1.ckpt = some none ∧
    (resolveStart (some { signature := sigW, next_cursor := none, saved_at := "t" })
      sigW none).1 = false := by
  constructor
  · exact C4_terminal_cursor_cleared.1 apiW4 some 10 true "1" 5
      (fun c => by simp [apiW4]) (by decide)
  · exact C4_terminal_cursor_cleared.2 sigW none "t"

/-- Invariant carried through the discovery loops: the collected record
paths are distinct and every collected path is in the seen set. -/
def DiscInv (st : List ShardRec × List String) : Prop :=
  ((st.1.map (fun r => r.filepath)).Nodup) ∧ ∀ r ∈ st.1, r.filepath ∈ st.2

/-- Helper: one folder's path loop preserves the discovery invariant. -/
theorem discoverPaths_inv (fs : FS) (nc folder : String) :
    ∀ (l : List String) (st : List ShardRec × List String), DiscInv st →
      DiscInv (discoverPaths fs nc folder l st) := by
  intro l
  induction l with
  | nil => intro st h; exact h
  | cons fp0 rest ih =>
    intro st h
    obtain ⟨hnd, hmem⟩ := h
    unfold discoverPaths
    by_cases hseen : fs.norm fp0 ∈ st.2
    · rw [if_pos hseen]
      exact ih st ⟨hnd, hmem⟩
    · rw [if_neg hseen]
      by_cases hfilter : nc ≠ "" ∧ ¬ strContains (pyBasename (fs.norm fp0)) nc
      · rw [if_pos hfilter]
        exact ih _ ⟨hnd, fun r hr => List.mem_cons_of_mem _ (hmem r hr)⟩
      · rw [if_neg hfilter]
        apply ih
        constructor
        · rw [List.map_append, List.nodup_append]
          refine ⟨hnd, by simp, ?_⟩
          intro p hp
          simp only [List.map_cons, List.map_nil, List.mem_singleton]
          intro hq
          subst hq
          obtain ⟨r, hr, hrp⟩ := List.mem_map.mp hp
          exact hseen (hrp ▸ hmem r hr)
        · intro r hr
          rcases List.mem_append.mp hr with hr | hr
          · exact List.mem_cons_of_mem _ (hmem r hr)
          · simp only [List.mem_singleton] at hr
            subst hr
            exact List.mem_cons_self _ _

/-- Helper: the folder loop preserves the discovery invariant. -/
theorem discoverFolders_inv (fs : FS) (nc : String) :
    ∀ (folders : List String) (st : List ShardRec × List String), DiscInv st →
      DiscInv (discoverFolders fs nc folders st) := by
  intro folders
  induction folders with
  | nil => intro st h; exact h
  | cons folder rest ih =>
    intro st h
    exact ih _ (discoverPaths_inv fs nc folder _ st h)

/-- C8 counterexample: the same directory listed as two parent roots.  The
`seen` set is created anew for each parent (merge_parquets.py:66 sits inside
the parent loop), so the single file under it is returned twice — the
deduplication is per-root, not global. -/
def fsC8 : FS :=
  { pathExists := fun _ => true
    childDirs := fun _ => []
    globParquet := fun d => [d ++ "/a.parquet"]
    norm := fun p => p }

/-- C8 counterexample theorem: with parents ["p", "p"] the discovered
records carry duplicate resolved paths. -/
theorem C8_counterexample :
    ¬ (((discoverParquetFiles fsC8 ["p", "p"] "" true).map
        (fun r => r.filepath)).Nodup) := by
  decide

/-- C8 amended: deduplication by resolved path holds within each parent root
(the records contributed by one root have pairwise distinct paths), but the
seen set resets between roots, so a file reachable from two listed roots is
returned once per root; a missing root directory contributes nothing and the
remaining roots are processed normally (no exception). -/
theorem C8_discovery_dedup_per_root :
    (∀ (fs : FS) (nc : String) (old : Bool) (parent : String),
      (((discoverParent fs nc old parent).map (fun r => r.filepath)).Nodup)) ∧
    (∀ (fs : FS) (parents : List String) (nc : String) (old : Bool) (bad : String),
      fs.pathExists (fs.norm bad) = false →
      discoverParquetFiles fs (bad :: parents) nc old =
        discoverParquetFiles fs parents nc old) := by
  constructor
  · intro fs nc old parent
    unfold discoverParent
    dsimp only
    by_cases hex : fs.pathExists (fs.norm parent) = true
    · rw [if_pos hex]
      exact (discoverFolders_inv fs nc _ ([], []) ⟨List.nodup_nil, by simp⟩).1
    · rw [Bool.not_eq_true] at hex
      rw [hex]
      simp
  · intro fs parents nc old bad hbad
    unfold discoverParquetFiles
    have hskip : discoverParent fs nc old bad = [] := by
      unfold discoverParent
      dsimp only
      rw [hbad]
      simp
    rw [List.map_cons, hskip, List.flatten_cons, List.nil_append]

/-- Witness for C8: on the concrete two-root filesystem each single root
yields distinct paths, and prepending a missing root changes nothing. -/
def fsC8m : FS :=
  { fsC8 with pathExists := fun p => p ≠ "missing" }

/-- Witness theorem for C8. -/
theorem C8_discovery_dedup_per_root_witness :
    (((discoverParent fsC8 "" true "p").map (fun r => r.filepath)).Nodup) ∧
    discoverParquetFiles fsC8m ["missing", "p"] "" true =
      discoverParquetFiles fsC8m ["p"] "" true := by
  constructor
  · exact C8_discovery_dedup_per_root.1 fsC8 "" true "p"
  · exact C8_discovery_dedup_per_root.2 fsC8m ["p"] "" true "missing" (by decide)

/-- Field lists whose equally-named fields agree in type up to null
promotion: two fields sharing a name either carry equal types or one of
them has the null type (the drift the default promotion of
`pa.unify_schemas` accepts, e.g. an all-null column in one shard and a
typed one in another).  Under this hypothesis unification cannot fail. -/
def ConsistentUpToNull (fields : List PField) : Prop :=
  ∀ f ∈ fields, ∀ g ∈ fields, f.name = g.name →
    f.typ = g.typ ∨ f.typ = PType.null ∨ g.typ = PType.null

instance (fields : List PField) : Decidable (ConsistentUpToNull fields) := by
  unfold ConsistentUpToNull
  infer_instance

/-- The type the unified schema assigns to a column name: the type of the
first occurrence whose type is not null, or null when every occurrence is
null (or the name never occurs). -/
def resolveType (l : List PField) (n : String) : PType :=
  match l.find? (fun f => f.name == n && !(f.typ == PType.null)) with
  | some f => f.typ
  | none => PType.null

/-- The failure-free image of `mergeFieldInto`: identical on every
non-error branch (the error branch is unreachable under
`ConsistentUpToNull`). -/
def mergeFieldPure (acc : List PField) (f : PField) : List PField :=
  match acc.find? (fun g => g.name == f.name) with
  | none => acc ++ [f]
  | some g =>
    if g.typ = f.typ then acc
    else if g.typ = PType.null then
      acc.map (fun h => if h.name == f.name then f else h)
    else acc

/-- What unification computes: the pure fold over the concatenated fields. -/
def unifyPure (l : List PField) : List PField :=
  l.foldl mergeFieldPure []

/-- Invariant of the unification fold: after processing `pre`, the
accumulator holds one entry per name occurring in `pre`, typed by
`resolveType pre`, with pairwise distinct names. -/
def UnifyInv (pre acc : List PField) : Prop :=
  (∀ a ∈ acc, (∃ f ∈ pre, f.name = a.name) ∧ a.typ = resolveType pre a.name) ∧
  (∀ f ∈ pre, ∃ a ∈ acc, a.name = f.name) ∧
  ((acc.map (fun a => a.name)).Nodup)

/-- Helper: string beq is symmetric in falsehood. -/
theorem beq_false_symm {x y : String} (h : (x == y) = false) : (y == x) = false :=
  beq_eq_false_iff_ne.mpr (fun he => beq_eq_false_iff_ne.mp h he.symm)

/-- Helper: fields equal when name and type are. -/
theorem pfield_eq {a b : PField} (h1 : a.name = b.name) (h2 : a.typ = b.typ) : a = b := by
  cases a
  cases b
  simp only [PField.mk.injEq]
  exact ⟨h1, h2⟩

/-- Helper: distinct-name lists determine members by name. -/
theorem eq_of_mem_nodup_names {acc : List PField}
    (hnd : ((acc.map (fun a => a.name)).Nodup)) {a b : PField}
    (ha : a ∈ acc) (hb : b ∈ acc) (hn : a.name = b.name) : a = b :=
  List.inj_on_of_nodup_map hnd ha hb hn

/-- Helper: how `resolveType` changes when one field is appended. -/
theorem resolveType_append_one (pre : List PField) (f : PField) (n : String) :
    resolveType (pre ++ [f]) n =
      (match pre.find? (fun g => g.name == n && !(g.typ == PType.null)) with
       | some g => g.typ
       | none =>
         if f.name == n && !(f.typ == PType.null) then f.typ else PType.null) := by
  unfold resolveType
  rw [List.find?_append]
  cases hpre : pre.find? (fun g => g.name == n && !(g.typ == PType.null)) with
  | some g => rfl
  | none =>
    cases hp : (f.name == n && !(f.typ == PType.null)) with
    | true => simp [List.find?_cons, hp]
    | false => simp [List.find?_cons, hp]

/-- Helper: appending a field with a different name leaves `resolveType`
unchanged. -/
theorem resolveType_append_one_ne (pre : List PField) (f : PField) (n : String)
    (h : (f.name == n) = false) :
    resolveType (pre ++ [f]) n = resolveType pre n := by
  rw [resolveType_append_one]
  unfold resolveType
  cases hpre : pre.find? (fun g => g.name == n && !(g.typ == PType.null)) with
  | some g => rfl
  | none => simp [h]

/-- Helper: the promotion replacement does not change the name list. -/
theorem map_replace_names (acc : List PField) (f : PField) :
    ((acc.map (fun h => if h.name == f.name then f else h)).map (fun a => a.name)) =
      acc.map (fun a => a.name) := by
  rw [List.map_map]
  apply List.map_congr_left
  intro a _
  by_cases h : (a.name == f.name) = true
  · show (if a.name == f.name then f else a).name = a.name
    rw [if_pos h]
    exact (eq_of_beq h).symm
  · rw [Bool.not_eq_true] at h
    show (if a.name == f.name then f else a).name = a.name
    rw [h]
    simp

/-- Helper: `resolveType` is invariant under permutation of the field list
when the list is consistent up to null promotion (all non-null occurrences
of a name share one type). -/
theorem resolveType_perm (l1 l2 : List PField) (h : l1.Perm l2)
    (hc : ConsistentUpToNull l1) (n : String) :
    resolveType l1 n = resolveType l2 n := by
  unfold resolveType
  cases h1 : l1.find? (fun f => f.name == n && !(f.typ == PType.null)) with
  | none =>
    cases h2 : l2.find? (fun f => f.name == n && !(f.typ == PType.null)) with
    | none => rfl
    | some g =>
      exfalso
      have hgmem : g ∈ l2 := List.mem_of_find?_eq_some h2
      have hgp0 := List.find?_some h2
      exact List.find?_eq_none.mp h1 g (h.mem_iff.mpr hgmem) hgp0
  | some f =>
    cases h2 : l2.find? (fun f => f.name == n && !(f.typ == PType.null)) with
    | none =>
      exfalso
      have hfmem : f ∈ l1 := List.mem_of_find?_eq_some h1
      have hfp0 := List.find?_some h1
      exact List.find?_eq_none.mp h2 f (h.mem_iff.mp hfmem) hfp0
    | some g =>
      have hfmem : f ∈ l1 := List.mem_of_find?_eq_some h1
      have hgmem : g ∈ l1 := h.mem_iff.mpr (List.mem_of_find?_eq_some h2)
      obtain ⟨hfn, hft⟩ : f.name = n ∧ ¬ f.typ = PType.null := by
        simpa using List.find?_some h1
      obtain ⟨hgn, hgt⟩ : g.name = n ∧ ¬ g.typ = PType.null := by
        simpa using List.find?_some h2
      have hname : f.name = g.name := hfn.trans hgn.symm
      rcases hc f hfmem g hgmem hname with h3 | h3 | h3
      · exact h3
      · exact absurd h3 hft
      · exact absurd h3 hgt

/-- C7 counterexample schemas: shard A has only column x, shard B only
column y. -/
def readSchemaC7 : String → Option PSchema := fun p =>
  if p = "A" then some [{ name := "x", typ := PType.int64 }]
  else if p = "B" then some [{ name := "y", typ := PType.int64 }]
  else none

/-- C7 counterexample: `pa.unify_schemas` keeps fields in first-seen order,
so `[A, B]` unifies to schema (x, y) while the permutation `[B, A]` unifies
to (y, x) — different schemas, refuting exact schema equality under shard
permutation. -/
theorem C7_counterexample :
    (collectUnifiedSchema readSchemaC7 ["A", "B"]).toOption ≠
      (collectUnifiedSchema readSchemaC7 ["B", "A"]).toOption := by
  decide

/-- The main unification fold lemma: under null-compatible drift the
monadic fold never hits the error branch, coincides with the pure fold, and
carries the `UnifyInv` invariant across any processed prefix. -/
theorem unify_fold_inv (L : List PField) (hc : ConsistentUpToNull L) :
    ∀ (suf pre acc : List PField), (∀ f ∈ suf, f ∈ L) → (∀ f ∈ pre, f ∈ L) →
      UnifyInv pre acc →
      (suf.foldlM mergeFieldInto acc = Except.ok (suf.foldl mergeFieldPure acc) ∧
       UnifyInv (pre ++ suf) (suf.foldl mergeFieldPure acc)) := by
  intro suf
  induction suf with
  | nil =>
    intro pre acc _ _ hinv
    refine ⟨rfl, ?_⟩
    rw [List.append_nil]
    exact hinv
  | cons f rest ih =>
    intro pre acc hsuf hpre hinv
    obtain ⟨hfor, hcov, hnd⟩ := hinv
    have hfL : f ∈ L := hsuf f (List.mem_cons_self f rest)
    have hrestL : ∀ x ∈ rest, x ∈ L := fun x hx => hsuf x (List.mem_cons_of_mem f hx)
    have hpreL : ∀ x ∈ pre ++ [f], x ∈ L := by
      intro x hx
      rcases List.mem_append.mp hx with hx | hx
      · exact hpre x hx
      · exact (List.eq_of_mem_singleton hx) ▸ hfL
    have hstep : mergeFieldInto acc f = Except.ok (mergeFieldPure acc f) ∧
        UnifyInv (pre ++ [f]) (mergeFieldPure acc f) := by
      cases hfind : acc.find? (fun g => g.name == f.name) with
      | none =>
        have hnone : ∀ g ∈ acc, (g.name == f.name) = false := by
          intro g hg
          have := List.find?_eq_none.mp hfind g hg
          simpa using this
        have hnopre : ∀ w ∈ pre, w.name ≠ f.name := by
          intro w hw he
          obtain ⟨a, ha, han⟩ := hcov w hw
          have hb := hnone a ha
          rw [han, he] at hb
          simp at hb
        have hfindpre : pre.find?
            (fun g => g.name == f.name && !(g.typ == PType.null)) = none := by
          rw [List.find?_eq_none]
          intro w hw hcontra
          obtain ⟨hb, _⟩ : w.name = f.name ∧ ¬ w.typ = PType.null := by
            simpa using hcontra
          exact hnopre w hw hb
        have he1 : mergeFieldInto acc f = Except.ok (acc ++ [f]) := by
          unfold mergeFieldInto
          rw [hfind]
        have he2 : mergeFieldPure acc f = acc ++ [f] := by
          unfold mergeFieldPure
          rw [hfind]
        refine ⟨by rw [he1, he2], ?_⟩
        rw [he2]
        refine ⟨?_, ?_, ?_⟩
        · intro a ha
          rcases List.mem_append.mp ha with ha | ha
          · obtain ⟨⟨w, hw, hwname⟩, htyp⟩ := hfor a ha
            refine ⟨⟨w, List.mem_append_left _ hw, hwname⟩, ?_⟩
            rw [resolveType_append_one_ne pre f a.name
              (beq_false_symm (hnone a ha))]
            exact htyp
          · have haf : a = f := List.eq_of_mem_singleton ha
            subst haf
            refine ⟨⟨a, List.mem_append_right _ (List.mem_singleton_self a), rfl⟩, ?_⟩
            rw [resolveType_append_one, hfindpre]
            by_cases hnull : (a.typ == PType.null) = true
            · have h0 : a.typ = PType.null := eq_of_beq hnull
              simp [hnull, h0]
            · rw [Bool.not_eq_true] at hnull
              simp [hnull]
        · intro w hw
          rcases List.mem_append.mp hw with hw | hw
          · obtain ⟨a, ha, han⟩ := hcov w hw
            exact ⟨a, List.mem_append_left _ ha, han⟩
          · exact ⟨f, List.mem_append_right _ (List.mem_singleton_self f),
              by rw [List.eq_of_mem_singleton hw]⟩
        · rw [List.map_append, List.nodup_append]
          refine ⟨hnd, by simp, ?_⟩
          intro p hp
          simp only [List.map_cons, List.map_nil, List.mem_singleton]
          intro hq
          subst hq
          obtain ⟨a, ha, hap⟩ := List.mem_map.mp hp
          have hb := hnone a ha
          rw [hap] at hb
          simp at hb
      | some g =>
        have hg : g ∈ acc := List.mem_of_find?_eq_some hfind
        have hgname : g.name = f.name := by simpa using List.find?_some hfind
        obtain ⟨⟨w, hwpre, hwname⟩, hgtyp⟩ := hfor g hg
        by_cases hEq : g.typ = f.typ
        · have he1 : mergeFieldInto acc f = Except.ok acc := by
            unfold mergeFieldInto
            rw [hfind]
            exact if_pos hEq
          have he2 : mergeFieldPure acc f = acc := by
            unfold mergeFieldPure
            rw [hfind]
            exact if_pos hEq
          refine ⟨by rw [he1, he2], ?_⟩
          rw [he2]
          refine ⟨?_, ?_, hnd⟩
          · intro a ha
            obtain ⟨⟨w1, hw1, hw1n⟩, htyp⟩ := hfor a ha
            refine ⟨⟨w1, List.mem_append_left _ hw1, hw1n⟩, ?_⟩
            by_cases hanf : (f.name == a.name) = true
            · have hafg : a = g := eq_of_mem_nodup_names hnd ha hg
                ((eq_of_beq hanf).symm.trans hgname.symm)
              rw [resolveType_append_one]
              cases hfp : pre.find?
                  (fun g0 => g0.name == a.name && !(g0.typ == PType.null)) with
              | some w0 =>
                have hres : resolveType pre a.name = w0.typ := by
                  unfold resolveType
                  rw [hfp]
                rw [htyp, hres]
              | none =>
                have hres : resolveType pre a.name = PType.null := by
                  unfold resolveType
                  rw [hfp]
                have hanull : a.typ = PType.null := htyp.trans hres
                have hfnull : f.typ = PType.null :=
                  hEq.symm.trans (hafg ▸ hanull)
                rw [hanull]
                have hb : (f.typ == PType.null) = true := by
                  rw [hfnull]
                  decide
                simp [hb]
            · rw [Bool.not_eq_true] at hanf
              rw [resolveType_append_one_ne pre f a.name hanf]
              exact htyp
          · intro w1 hw1
            rcases List.mem_append.mp hw1 with hw1 | hw1
            · exact hcov w1 hw1
            · exact ⟨g, hg, by rw [hgname, List.eq_of_mem_singleton hw1]⟩
        · by_cases hGnull : g.typ = PType.null
          · have hfnn : f.typ ≠ PType.null := fun hfn => hEq (hGnull.trans hfn.symm)
            have he1 : mergeFieldInto acc f =
                Except.ok (acc.map (fun h => if h.name == f.name then f else h)) := by
              unfold mergeFieldInto
              rw [hfind]
              show (if g.typ = f.typ then Except.ok acc
                    else if g.typ = PType.null then
                      Except.ok (acc.map (fun h => if h.name == f.name then f else h))
                    else if f.typ = PType.null then Except.ok acc
                    else Except.error ("Unable to merge: Field " ++ f.name ++
                      " has incompatible types")) = _
              rw [if_neg hEq, if_pos hGnull]
            have he2 : mergeFieldPure acc f =
                acc.map (fun h => if h.name == f.name then f else h) := by
              unfold mergeFieldPure
              rw [hfind]
              show (if g.typ = f.typ then acc
                    else if g.typ = PType.null then
                      acc.map (fun h => if h.name == f.name then f else h)
                    else acc) = _
              rw [if_neg hEq, if_pos hGnull]
            refine ⟨by rw [he1, he2], ?_⟩
            rw [he2]
            have hresnull : resolveType pre f.name = PType.null :=
              hgname ▸ (hgtyp.symm.trans hGnull)
            have hfindpre : pre.find?
                (fun g0 => g0.name == f.name && !(g0.typ == PType.null)) = none := by
              cases hfp : pre.find?
                  (fun g0 => g0.name == f.name && !(g0.typ == PType.null)) with
              | none => rfl
              | some w0 =>
                exfalso
                obtain ⟨_, hw0t⟩ : w0.name = f.name ∧ ¬ w0.typ = PType.null := by
                  simpa using List.find?_some hfp
                have hres : resolveType pre f.name = w0.typ := by
                  unfold resolveType
                  rw [hfp]
                rw [hresnull] at hres
                exact hw0t hres.symm
            have hresf : resolveType (pre ++ [f]) f.name = f.typ := by
              rw [resolveType_append_one, hfindpre]
              have hb : (f.typ == PType.null) = false := beq_eq_false_iff_ne.mpr hfnn
              simp [hb]
            refine ⟨?_, ?_, ?_⟩
            · intro a ha
              obtain ⟨h0, ha0, hmap⟩ := List.mem_map.mp ha
              by_cases hh : (h0.name == f.name) = true
              · rw [if_pos hh] at hmap
                subst hmap
                refine ⟨⟨f, List.mem_append_right _ (List.mem_singleton_self f), rfl⟩, ?_⟩
                exact hresf.symm
              · rw [Bool.not_eq_true] at hh
                rw [hh] at hmap
                simp only [Bool.false_eq_true, if_false] at hmap
                subst hmap
                obtain ⟨⟨w1, hw1, hw1n⟩, htyp0⟩ := hfor h0 ha0
                refine ⟨⟨w1, List.mem_append_left _ hw1, hw1n⟩, ?_⟩
                rw [resolveType_append_one_ne pre f h0.name (beq_false_symm hh)]
                exact htyp0
            · intro w1 hw1
              rcases List.mem_append.mp hw1 with hw1 | hw1
              · obtain ⟨a, ha, han⟩ := hcov w1 hw1
                refine ⟨(fun h => if h.name == f.name then f else h) a,
                  List.mem_map_of_mem _ ha, ?_⟩
                by_cases ha2 : (a.name == f.name) = true
                · show (if a.name == f.name then f else a).name = w1.name
                  rw [if_pos ha2]
                  exact (eq_of_beq ha2).symm.trans han
                · rw [Bool.not_eq_true] at ha2
                  show (if a.name == f.name then f else a).name = w1.name
                  rw [ha2]
                  simpa using han
              · have hgf : (fun h => if h.name == f.name then f else h) g = f := by
                  show (if g.name == f.name then f else g) = f
                  rw [if_pos (by rw [hgname]; exact beq_self_eq_true f.name)]
                have hmem1 : (fun h => if h.name == f.name then f else h) g ∈
                    acc.map (fun h => if h.name == f.name then f else h) :=
                  List.mem_map_of_mem _ hg
                rw [hgf] at hmem1
                exact ⟨f, hmem1, by rw [List.eq_of_mem_singleton hw1]⟩
            · rw [map_replace_names acc f]
              exact hnd
          · -- g and f both non-null with different types cannot happen
            have hFnull : f.typ = PType.null := by
              by_contra hFn
              cases hfp : pre.find?
                  (fun g0 => g0.name == g.name && !(g0.typ == PType.null)) with
              | none =>
                have hres : resolveType pre g.name = PType.null := by
                  unfold resolveType
                  rw [hfp]
                exact hGnull (hgtyp.trans hres)
              | some w0 =>
                have hw0mem : w0 ∈ pre := List.mem_of_find?_eq_some hfp
                obtain ⟨hw0n, hw0t⟩ : w0.name = g.name ∧ ¬ w0.typ = PType.null := by
                  simpa using List.find?_some hfp
                have hw0typ : w0.typ = g.typ := by
                  have hres : resolveType pre g.name = w0.typ := by
                    unfold resolveType
                    rw [hfp]
                  exact (hgtyp.trans hres).symm
                rcases hc w0 (hpre w0 hw0mem) f hfL
                    (hw0n.trans hgname) with h3 | h3 | h3
                · exact hEq (hw0typ.symm.trans h3)
                · exact absurd h3 hw0t
                · exact hFn h3
            have he1 : mergeFieldInto acc f = Except.ok acc := by
              unfold mergeFieldInto
              rw [hfind]
              show (if g.typ = f.typ then Except.ok acc
                    else if g.typ = PType.null then
                      Except.ok (acc.map (fun h => if h.name == f.name then f else h))
                    else if f.typ = PType.null then Except.ok acc
                    else Except.error ("Unable to merge: Field " ++ f.name ++
                      " has incompatible types")) = _
              rw [if_neg hEq, if_neg hGnull, if_pos hFnull]
            have he2 : mergeFieldPure acc f = acc := by
              unfold mergeFieldPure
              rw [hfind]
              show (if g.typ = f.typ then acc
                    else if g.typ = PType.null then
                      acc.map (fun h => if h.name == f.name then f else h)
                    else acc) = _
              rw [if_neg hEq, if_neg hGnull]
            refine ⟨by rw [he1, he2], ?_⟩
            rw [he2]
            refine ⟨?_, ?_, hnd⟩
            · intro a ha
              obtain ⟨⟨w1, hw1, hw1n⟩, htyp0⟩ := hfor a ha
              refine ⟨⟨w1, List.mem_append_left _ hw1, hw1n⟩, ?_⟩
              by_cases hanf : (f.name == a.name) = true
              · have hafg : a = g := eq_of_mem_nodup_names hnd ha hg
                  ((eq_of_beq hanf).symm.trans hgname.symm)
                rw [resolveType_append_one]
                cases hfp : pre.find?
                    (fun g0 => g0.name == a.name && !(g0.typ == PType.null)) with
                | some w0 =>
                  have hres : resolveType pre a.name = w0.typ := by
                    unfold resolveType
                    rw [hfp]
                  rw [htyp0, hres]
                | none =>
                  exfalso
                  have hres : resolveType pre a.name = PType.null := by
                    unfold resolveType
                    rw [hfp]
                  exact hGnull (hafg ▸ (htyp0.trans hres))
              · rw [Bool.not_eq_true] at hanf
                rw [resolveType_append_one_ne pre f a.name hanf]
                exact htyp0
            · intro w1 hw1
              rcases List.mem_append.mp hw1 with hw1 | hw1
              · exact hcov w1 hw1
              · exact ⟨g, hg, by rw [hgname, List.eq_of_mem_singleton hw1]⟩
    obtain ⟨hs1, hs2⟩ := hstep
    obtain ⟨ihe, ihinv⟩ := ih (pre ++ [f]) (mergeFieldPure acc f) hrestL hpreL hs2
    constructor
    · simp only [List.foldlM_cons, hs1, List.foldl_cons]
      rw [← ihe]
      rfl
    · rw [List.foldl_cons]
      rw [show pre ++ f :: rest = (pre ++ [f]) ++ rest by
        rw [List.append_assoc, List.singleton_append]]
      exact ihinv

/-- Helper: under null-compatible drift, `pyarrow` unification succeeds,
computes the pure fold, and satisfies the unification invariant over the
whole field list. -/
theorem unifySchemas_ok_upToNull (ss : List PSchema)
    (hc : ConsistentUpToNull ss.flatten) :
    unifySchemas ss = Except.ok (unifyPure ss.flatten) ∧
    UnifyInv ss.flatten (unifyPure ss.flatten) := by
  have hinv0 : UnifyInv [] [] := by
    refine ⟨?_, ?_, by simp⟩
    · intro a ha
      exact absurd ha (List.not_mem_nil a)
    · intro x hx
      exact absurd hx (List.not_mem_nil x)
  obtain ⟨h1, h2⟩ := unify_fold_inv ss.flatten hc ss.flatten [] []
    (fun _ h => h) (fun x hx => absurd hx (List.not_mem_nil x)) hinv0
  rw [List.nil_append] at h2
  exact ⟨h1, h2⟩

/-- C7 amended: permuting the shard-path list permutes the unified schema —
the result contains exactly the same name/type fields, only the column
order (first-seen order) may differ.  Stated for shards whose same-named
columns agree in type up to null promotion (an all-null column may pair
with any typed column), the drift the default promotion accepts; there
unification succeeds on every permutation. -/
theorem C7_unified_schema_perm (readSchema : String → Option PSchema)
    (paths1 paths2 : List String) (hperm : paths1.Perm paths2)
    (hcons : ConsistentUpToNull ((schemasOf readSchema paths1).flatten)) :
    ∃ u1 u2, collectUnifiedSchema readSchema paths1 = Except.ok u1 ∧
      collectUnifiedSchema readSchema paths2 = Except.ok u2 ∧ u1.Perm u2 := by
  have hsp : (schemasOf readSchema paths1).Perm (schemasOf readSchema paths2) :=
    hperm.filterMap _
  have hfp : ((schemasOf readSchema paths1).flatten).Perm
      ((schemasOf readSchema paths2).flatten) := hsp.flatten
  have hcons2 : ConsistentUpToNull ((schemasOf readSchema paths2).flatten) := by
    intro f hf g hg he
    exact hcons f (hfp.mem_iff.mpr hf) g (hfp.mem_iff.mpr hg) he
  unfold collectUnifiedSchema
  dsimp only
  by_cases hemp : (schemasOf readSchema paths1).isEmpty = true
  · have he1 : schemasOf readSchema paths1 = [] := List.isEmpty_iff.mp hemp
    have he2 : schemasOf readSchema paths2 = [] := (he1 ▸ hsp).symm.eq_nil
    rw [he1, he2]
    exact ⟨[], [], rfl, rfl, List.Perm.refl []⟩
  · have he2 : (schemasOf readSchema paths2).isEmpty = false := by
      rw [List.isEmpty_eq_false_iff_exists_mem]
      rw [Bool.not_eq_true, List.isEmpty_eq_false_iff_exists_mem] at hemp
      obtain ⟨a, ha⟩ := hemp
      exact ⟨a, hsp.mem_iff.mp ha⟩
    rw [Bool.not_eq_true] at hemp
    rw [hemp, he2]
    simp only [Bool.false_eq_true, if_false]
    obtain ⟨hok1, hfor1, hcov1, hnd1⟩ := unifySchemas_ok_upToNull _ hcons
    obtain ⟨hok2, hfor2, hcov2, hnd2⟩ := unifySchemas_ok_upToNull _ hcons2
    rw [hok1, hok2]
    refine ⟨_, _, rfl, rfl, ?_⟩
    apply (List.perm_ext_iff_of_nodup
      (List.Nodup.of_map _ hnd1) (List.Nodup.of_map _ hnd2)).mpr
    intro x
    constructor
    · intro hx
      obtain ⟨⟨f, hf, hfn⟩, htyp⟩ := hfor1 x hx
      obtain ⟨a, ha, han⟩ := hcov2 f (hfp.mem_iff.mp hf)
      obtain ⟨_, hatyp⟩ := hfor2 a ha
      have hax : a = x := by
        refine pfield_eq (han.trans hfn) ?_
        rw [hatyp, han.trans hfn, ← resolveType_perm _ _ hfp hcons x.name, ← htyp]
      exact hax ▸ ha
    · intro hx
      obtain ⟨⟨f, hf, hfn⟩, htyp⟩ := hfor2 x hx
      obtain ⟨a, ha, han⟩ := hcov1 f (hfp.mem_iff.mpr hf)
      obtain ⟨_, hatyp⟩ := hfor1 a ha
      have hax : a = x := by
        refine pfield_eq (han.trans hfn) ?_
        rw [hatyp, han.trans hfn, resolveType_perm _ _ hfp hcons x.name, ← htyp]
      exact hax ▸ ha

/-- C7 witness schemas: shard A carries an all-null x column, shard B the
int64-typed x plus a y column — the null-promotion drift the amended claim
covers. -/
def readSchemaC7n : String → Option PSchema := fun p =>
  if p = "A" then some [{ name := "x", typ := PType.null }]
  else if p = "B" then
    some [{ name := "x", typ := PType.int64 }, { name := "y", typ := PType.int64 }]
  else none

/-- Witness for C7: a null-drift input satisfies the hypothesis, and the
theorem yields the two (order-permuted) unified schemas. -/
theorem C7_unified_schema_perm_witness :
    ∃ u1 u2, collectUnifiedSchema readSchemaC7n ["A", "B"] = Except.ok u1 ∧
      collectUnifiedSchema readSchemaC7n ["B", "A"] = Except.ok u2 ∧ u1.Perm u2 :=
  C7_unified_schema_perm readSchemaC7n ["A", "B"] ["B", "A"] (by decide) (by decide)

/-- The row total the merge loop accumulates for a path list when every
readable shard is counted: the sum of the aligned row counts of the shards
`readTable` can read. -/
def expectedRows (env : MergeEnv) (uschema : PSchema) (paths : List String) : Nat :=
  paths.foldl (fun n p =>
    match env.readTable p with
    | none => n
    | some t => n + (alignTableToSchema env.castFn t uschema).nrows) 0

/-- Helper: with the parquet writer unopened, the merge loop still counts
every readable shard. -/
theorem mergeStep_rows_no_writer (env : MergeEnv) (us : PSchema)
    (hw : env.writerOpens = false) :
    ∀ (paths : List String) (acc : Nat × List PTable),
      (paths.foldl (mergeStep env us) acc).1 =
        paths.foldl (fun n p =>
          match env.readTable p with
          | none => n
          | some t => n + (alignTableToSchema env.castFn t us).nrows) acc.1 := by
  intro paths
  induction paths with
  | nil =>
    intro acc
    rfl
  | cons p rest ih =>
    intro acc
    rw [List.foldl_cons, List.foldl_cons, ih]
    cases hrt : env.readTable p with
    | none =>
      simp only [mergeStep, hrt]
    | some t =>
      simp only [mergeStep, hrt, hw, Bool.false_eq_true, if_false]

/-- C10: `merge_parquets` accumulates `total_rows_written` for every shard
that reads and aligns, independent of whether the `ParquetWriter` could be
opened (merge_parquets.py:166-168 guards only the write, not the count) and
independent of the final rename; the reported parquet path is None whenever
the writer failed to open or the rename failed, so the report can combine a
null parquet with a positive row count; and `inputs` always lists every
discovered shard path, unreadable ones included. -/
theorem C10_merge_report (env : MergeEnv) (parents : List String)
    (outputDir basename nc : String) (old pkl : Bool) (out : MergeOutcome)
    (hok : mergeParquets env parents outputDir basename nc old pkl = Except.ok out) :
    out.report.inputs =
      (discoverParquetFiles env.fs parents nc old).map (fun r => r.filepath) ∧
    (env.writerOpens = false →
      out.report.parquet = none ∧
      out.report.rows_written = expectedRows env out.uschema out.report.inputs) ∧
    (env.renameOk = false → out.report.parquet = none) := by
  unfold mergeParquets at hok
  dsimp only at hok
  by_cases h1 : (discoverParquetFiles env.fs parents nc old).isEmpty = true
  · rw [h1] at hok
    simp only [if_true] at hok
    exact Except.noConfusion hok
  · rw [Bool.not_eq_true] at h1
    rw [h1] at hok
    simp only [Bool.false_eq_true, if_false] at hok
    cases hsch : collectUnifiedSchema env.readSchema
        ((discoverParquetFiles env.fs parents nc old).map (fun r => r.filepath)) with
    | error e =>
      rw [hsch] at hok
      exact Except.noConfusion hok
    | ok us =>
      rw [hsch] at hok
      dsimp only at hok
      by_cases h2 : us.length = 0
      · rw [if_pos h2] at hok
        exact Except.noConfusion hok
      · rw [if_neg h2] at hok
        injection hok with hout
        subst hout
        refine ⟨rfl, ?_, ?_⟩
        · intro hw
          constructor
          · show (if (env.writerOpens && env.renameOk) = true then _ else none) = none
            rw [hw]
            simp
          · exact mergeStep_rows_no_writer env us hw _ (0, [])
        · intro hr
          show (if (env.writerOpens && env.renameOk) = true then _ else none) = none
          rw [hr]
          simp

instance {ε α : Type} [DecidableEq ε] [DecidableEq α] : DecidableEq (Except ε α) :=
  fun a b =>
    match a, b with
    | Except.error x, Except.error y =>
      if h : x = y then Decidable.isTrue (by rw [h])
      else Decidable.isFalse (fun he => h (by injection he))
    | Except.ok x, Except.ok y =>
      if h : x = y then Decidable.isTrue (by rw [h])
      else Decidable.isFalse (fun he => h (by injection he))
    | Except.error _, Except.ok _ => Decidable.isFalse (fun he => Except.noConfusion he)
    | Except.ok _, Except.error _ => Decidable.isFalse (fun he => Except.noConfusion he)

/-- A one-shard filesystem for the C10 witness. -/
def fsM : FS :=
  { pathExists := fun _ => true
    childDirs := fun _ => []
    globParquet := fun d => [d ++ "/s1.parquet"]
    norm := fun p => p }

/-- A one-row table carrying a doi column. -/
def tblW : PTable :=
  { cols := [{ name := "doi", typ := PType.string, vals := [PyVal.str "x"] }], nrows := 1 }

/-- A merge environment whose ParquetWriter fails to open while its one
shard reads fine. -/
def envC10 : MergeEnv :=
  { fs := fsM
    readSchema := fun _ => some [{ name := "doi", typ := PType.string }]
    readTable := fun _ => some tblW
    castFn := fun _ _ => none
    writerOpens := false
    writeOk := fun _ => true
    renameOk := true
    stamp := "ts" }

/-- The outcome of the C10 witness merge. -/
def outC10 : MergeOutcome :=
  (mergeParquets envC10 ["p"] "o" "m" "" true false).toOption.getD
    { report := { parquet := none, pkl := none, output_dir := "", rows_written := 0,
                  inputs := [] }
      written := []
      uschema := [] }

/-- Witness for C10: the writer fails to open, yet the report counts the one
readable row, reports no parquet path, and lists the discovered shard. -/
theorem C10_merge_report_witness :
    outC10.report.parquet = none ∧ outC10.report.rows_written = 1 ∧
    outC10.report.inputs = ["p/s1.parquet"] := by
  obtain ⟨hi, hw, _⟩ :=
    C10_merge_report envC10 ["p"] "o" "m" "" true false outC10 (by decide)
  exact ⟨(hw rfl).1, ((hw rfl).2).trans (by decide), hi.trans (by decide)⟩

/-- Occurrences of a doi value across the doi columns of the tables a merge
run wrote. -/
def doiCount (tables : List PTable) (d : String) : Nat :=
  (tables.map (fun t =>
    match t.cols.find? (fun c => c.name == "doi") with
    | some c => c.vals.count (PyVal.str d)
    | none => 0)).sum

/-- The two-shard filesystem of the C1 scenario. -/
def fsC1 : FS :=
  { pathExists := fun _ => true
    childDirs := fun _ => []
    globParquet := fun d => [d ++ "/s1.parquet", d ++ "/s2.parquet"]
    norm := fun p => p }

/-- The shared schema of the C1 scenario shards. -/
def schemaC1 : PSchema :=
  [{ name := "doi", typ := PType.string },
   { name := "provider_id", typ := PType.string },
   { name := "registered", typ := PType.string }]

/-- Shard 1 of the C1 scenario: id "x", optional signal null. -/
def tblC1a : PTable :=
  { cols := [{ name := "doi", typ := PType.string, vals := [PyVal.str "x"] },
             { name := "provider_id", typ := PType.string, vals := [PyVal.pynone] },
             { name := "registered", typ := PType.string, vals := [PyVal.str "2020-01-01"] }]
    nrows := 1 }

/-- Shard 2 of the C1 scenario: id "x", optional signal populated. -/
def tblC1b : PTable :=
  { cols := [{ name := "doi", typ := PType.string, vals := [PyVal.str "x"] },
             { name := "provider_id", typ := PType.string, vals := [PyVal.str "v"] },
             { name := "registered", typ := PType.string, vals := [PyVal.str "2020-01-01"] }]
    nrows := 1 }

/-- The healthy merge environment of the C1 scenario (writer opens, writes
and rename succeed, both shards readable). -/
def envC1 : MergeEnv :=
  { fs := fsC1
    readSchema := fun _ => some schemaC1
    readTable := fun p => if p = "p/s1.parquet" then some tblC1a else some tblC1b
    castFn := fun _ _ => none
    writerOpens := true
    writeOk := fun _ => true
    renameOk := true
    stamp := "ts" }

/-- C1 counterexample: `merge_parquets` streams each aligned shard straight
into the writer (merge_parquets.py:162-170) and performs NO deduplication
afterwards, so the two shards that both carry id "x" with the same
registered date produce a merged output with TWO rows for "x" — not the
single richest row the claim requires. -/
theorem C1_counterexample :
    (mergeParquets envC1 ["p"] "o" "m" "" true false).toOption.map
        (fun o => doiCount o.written "x") = some 2 := by
  decide

/-- The C1 scenario row with the optional signal null. -/
def hRowNull : HRow :=
  { doi := some "x", provider_id := none, alternate_ids_json := none,
    registered := some "2020-01-01", updated := none, created := none }

/-- The C1 scenario row with the optional signal populated. -/
def hRowVal : HRow :=
  { doi := some "x", provider_id := some "v", alternate_ids_json := none,
    registered := some "2020-01-01", updated := none, created := none }

/-- Helper: inserting into the sorted row list is a permutation of consing. -/
theorem insertRow_perm (r : HRow) : ∀ l, (insertRow r l).Perm (r :: l) := by
  intro l
  induction l with
  | nil => exact List.Perm.refl _
  | cons q rest ih =>
    unfold insertRow
    by_cases h : rowLE r q = true
    · rw [if_pos h]
    · rw [if_neg h]
      exact (ih.cons q).trans (List.Perm.swap r q rest)

/-- Helper: the row sort permutes its input. -/
theorem sortRows_perm : ∀ l, (sortRows l).Perm l := by
  intro l
  induction l with
  | nil => exact List.Perm.refl _
  | cons r rest ih =>
    exact (insertRow_perm r (sortRows rest)).trans (ih.cons r)

/-- Helper: the drop-duplicates fold only grows its accumulator. -/
theorem dropDup_acc_mono :
    ∀ (l acc : List HRow), acc ⊆ (l.foldl
      (fun acc r => if acc.any (fun q => q.doi == r.doi) then acc else acc ++ [r]) acc) := by
  intro l
  induction l with
  | nil =>
    intro acc x hx
    exact hx
  | cons r rest ih =>
    intro acc x hx
    rw [List.foldl_cons]
    by_cases hany : (acc.any (fun q => q.doi == r.doi)) = true
    · rw [if_pos hany]
      exact ih acc hx
    · rw [Bool.not_eq_true] at hany
      rw [hany]
      simp only [Bool.false_eq_true, if_false]
      exact ih (acc ++ [r]) (List.mem_append_left _ hx)

/-- Helper: every input doi is represented after dropping duplicates. -/
theorem dropDup_covers :
    ∀ (l acc : List HRow), ∀ x ∈ l, ∃ q ∈ (l.foldl
      (fun acc r => if acc.any (fun q => q.doi == r.doi) then acc else acc ++ [r]) acc),
      q.doi = x.doi := by
  intro l
  induction l with
  | nil =>
    intro acc x hx
    cases hx
  | cons r rest ih =>
    intro acc x hx
    rw [List.foldl_cons]
    rcases List.mem_cons.mp hx with hx | hx
    · subst hx
      by_cases hany : (acc.any (fun q => q.doi == x.doi)) = true
      · rw [if_pos hany]
        obtain ⟨q, hq, hqd⟩ := List.any_eq_true.mp hany
        exact ⟨q, dropDup_acc_mono rest acc hq, eq_of_beq hqd⟩
      · rw [Bool.not_eq_true] at hany
        rw [hany]
        simp only [Bool.false_eq_true, if_false]
        exact ⟨x, dropDup_acc_mono rest (acc ++ [x])
          (List.mem_append_right _ (List.mem_singleton_self x)), rfl⟩
    · by_cases hany : (acc.any (fun q => q.doi == r.doi)) = true
      · rw [if_pos hany]
        exact ih acc x hx
      · rw [Bool.not_eq_true] at hany
        rw [hany]
        simp only [Bool.false_eq_true, if_false]
        exact ih (acc ++ [r]) x hx

/-- Helper: the kept rows have pairwise distinct dois. -/
theorem dropDup_doi_nodup :
    ∀ (l acc : List HRow), ((acc.map (fun r => r.doi)).Nodup) →
      (((l.foldl
        (fun acc r => if acc.any (fun q => q.doi == r.doi) then acc else acc ++ [r])
        acc).map (fun r => r.doi)).Nodup) := by
  intro l
  induction l with
  | nil =>
    intro acc h
    exact h
  | cons r rest ih =>
    intro acc h
    rw [List.foldl_cons]
    by_cases hany : (acc.any (fun q => q.doi == r.doi)) = true
    · rw [if_pos hany]
      exact ih acc h
    · rw [Bool.not_eq_true] at hany
      rw [hany]
      simp only [Bool.false_eq_true, if_false]
      apply ih
      rw [List.map_append, List.nodup_append]
      refine ⟨h, by simp, ?_⟩
      intro p hp
      simp only [List.map_cons, List.map_nil, List.mem_singleton]
      intro hq
      subst hq
      obtain ⟨q, hq, hqp⟩ := List.mem_map.mp hp
      have := List.any_eq_false.mp hany q hq
      rw [hqp] at this
      simp at this

/-- C1 amended: the richness-ranked DOI deduplication lives not in
`merge_parquets` (whose output keeps every aligned row, see the
counterexample) but in `harvest_datacite_preprints_dataframe`
(harvest_datacite.py:460-471), where richness counts the non-null values of
provider_id and alternate_ids_json, rows sort by richness descending then
registered/updated/created ascending with missing values last, and the first
row per DOI is kept.  Applied to the two-shard scenario rows in either
order, exactly the populated row survives; and in general the result has one
row per DOI covering every input DOI. -/
theorem C1_dedup_in_harvester :
    (dedupByDoi [hRowNull, hRowVal] = [hRowVal] ∧
     dedupByDoi [hRowVal, hRowNull] = [hRowVal] ∧
     hRowVal.provider_id = some "v") ∧
    (∀ rows : List HRow,
      (((dedupByDoi rows).map (fun r => r.doi)).Nodup) ∧
      ∀ r ∈ rows, ∃ q ∈ dedupByDoi rows, q.doi = r.doi) := by
  constructor
  · exact ⟨by decide, by decide, rfl⟩
  · intro rows
    constructor
    · exact dropDup_doi_nodup (sortRows rows) [] (by simp)
    · intro r hr
      exact dropDup_covers (sortRows rows) [] r ((sortRows_perm rows).mem_iff.mpr hr)

/-- Witness for C1: the amended theorem applied at a concrete one-row list. -/
theorem C1_dedup_in_harvester_witness :
    ∃ q ∈ dedupByDoi [hRowNull], q.doi = hRowNull.doi :=
  (C1_dedup_in_harvester.2 [hRowNull]).2 hRowNull (List.mem_singleton_self hRowNull)

/-! Supporting lemmas for the crash-safety analysis of one pass (C2).  The
key facts: consuming items moves rows only between the buffer and the
durable chunks (never dropping any, as long as an incremental save directory
is configured), and never touches the fetched list, the last page, or the
checkpoint. -/

/-- The periodic flush preserves the fetched list, last page and checkpoint. -/
theorem flushIfNeeded_fields (N : Nat) (s : PassState) :
    (flushIfNeeded N true s).fetched = s.fetched ∧
    (flushIfNeeded N true s).lastPage = s.lastPage ∧
    (flushIfNeeded N true s).ckpt = s.ckpt := by
  unfold flushIfNeeded
  split
  · exact ⟨rfl, rfl, rfl⟩
  · exact ⟨rfl, rfl, rfl⟩

/-- With a save directory, the periodic flush keeps every row in the buffer
or in the durable chunks. -/
theorem flushIfNeeded_mem (N : Nat) (s : PassState) (x : Nat)
    (hx : x ∈ s.buffer ∨ x ∈ durableRows s) :
    x ∈ (flushIfNeeded N true s).buffer ∨ x ∈ durableRows (flushIfNeeded N true s) := by
  unfold flushIfNeeded
  split
  · right
    show x ∈ (s.chunks ++ [s.buffer]).flatten
    rw [List.flatten_append]
    rcases hx with hx | hx
    · exact List.mem_append_right _ (by simpa using hx)
    · exact List.mem_append_left _ hx
  · exact hx

/-- Consuming one item preserves the fetched list, last page and checkpoint. -/
theorem consumeOne_fields (rm : Nat → Option Nat) (N : Nat) (s : PassState) (it : Nat) :
    (consumeOne rm N true s it).fetched = s.fetched ∧
    (consumeOne rm N true s it).lastPage = s.lastPage ∧
    (consumeOne rm N true s it).ckpt = s.ckpt := by
  unfold consumeOne
  cases rm it <;> exact flushIfNeeded_fields N _

/-- Consuming one item keeps every already-held row in the buffer or the
durable chunks. -/
theorem consumeOne_mem (rm : Nat → Option Nat) (N : Nat) (s : PassState) (it : Nat)
    (x : Nat) (hx : x ∈ s.buffer ∨ x ∈ durableRows s) :
    x ∈ (consumeOne rm N true s it).buffer ∨ x ∈ durableRows (consumeOne rm N true s it) := by
  unfold consumeOne
  cases rm it with
  | none => exact flushIfNeeded_mem N s x hx
  | some r =>
    apply flushIfNeeded_mem
    rcases hx with hx | hx
    · exact Or.inl (List.mem_append_left _ hx)
    · exact Or.inr hx

/-- The row produced by the consumed item ends up in the buffer or the
durable chunks. -/
theorem consumeOne_new (rm : Nat → Option Nat) (N : Nat) (s : PassState) (it : Nat)
    (r : Nat) (hr : rm it = some r) :
    r ∈ (consumeOne rm N true s it).buffer ∨ r ∈ durableRows (consumeOne rm N true s it) := by
  unfold consumeOne
  rw [hr]
  apply flushIfNeeded_mem
  exact Or.inl (List.mem_append_right _ (List.mem_singleton_self r))

/-- The end-of-pass flush preserves the fetched list, last page, checkpoint
and buffer, and keeps every held row reachable. -/
theorem finalFlush_fields (s : PassState) :
    (finalFlush true s).fetched = s.fetched ∧
    (finalFlush true s).lastPage = s.lastPage ∧
    (finalFlush true s).ckpt = s.ckpt ∧
    (finalFlush true s).buffer = s.buffer ∧
    (∀ x, x ∈ durableRows s → x ∈ durableRows (finalFlush true s)) := by
  unfold finalFlush
  split
  · exact ⟨rfl, rfl, rfl, rfl, fun x hx => hx⟩
  · refine ⟨rfl, rfl, rfl, rfl, ?_⟩
    intro x hx
    show x ∈ (s.chunks ++ [s.buffer]).flatten
    rw [List.flatten_append]
    exact List.mem_append_left _ hx

/-- Full specification of page consumption: the final state keeps the
fetched list, last page and checkpoint; rows already held stay held; every
row of the consumed items becomes held; and every intermediate state keeps
those fields and the already-held rows as well. -/
theorem consumeItems_spec (rm : Nat → Option Nat) (N : Nat) :
    ∀ (items : List Nat) (s : PassState),
      ((consumeItems rm N true s items).2.fetched = s.fetched ∧
       (consumeItems rm N true s items).2.lastPage = s.lastPage ∧
       (consumeItems rm N true s items).2.ckpt = s.ckpt) ∧
      (∀ x, (x ∈ s.buffer ∨ x ∈ durableRows s) →
        (x ∈ (consumeItems rm N true s items).2.buffer ∨
         x ∈ durableRows (consumeItems rm N true s items).2)) ∧
      (∀ x ∈ rowsOf rm items,
        (x ∈ (consumeItems rm N true s items).2.buffer ∨
         x ∈ durableRows (consumeItems rm N true s items).2)) ∧
      (∀ t ∈ (consumeItems rm N true s items).1,
        (t.fetched = s.fetched ∧ t.lastPage = s.lastPage ∧ t.ckpt = s.ckpt) ∧
        (∀ x, (x ∈ s.buffer ∨ x ∈ durableRows s) →
          (x ∈ t.buffer ∨ x ∈ durableRows t))) := by
  intro items
  induction items with
  | nil =>
    intro s
    refine ⟨⟨rfl, rfl, rfl⟩, fun x hx => hx, ?_, ?_⟩
    · intro x hx
      cases hx
    · intro t ht
      cases ht
  | cons it rest ih =>
    intro s
    obtain ⟨co_f, co_l, co_c⟩ := consumeOne_fields rm N s it
    obtain ⟨⟨ih_f, ih_l, ih_c⟩, ih_mem, ih_new, ih_tr⟩ := ih (consumeOne rm N true s it)
    have hmem1 : ∀ x, (x ∈ s.buffer ∨ x ∈ durableRows s) →
        (x ∈ (consumeOne rm N true s it).buffer ∨
         x ∈ durableRows (consumeOne rm N true s it)) :=
      fun x hx => consumeOne_mem rm N s it x hx
    refine ⟨⟨?_, ?_, ?_⟩, ?_, ?_, ?_⟩
    · show (consumeItems rm N true (consumeOne rm N true s it) rest).2.fetched = s.fetched
      rw [ih_f, co_f]
    · show (consumeItems rm N true (consumeOne rm N true s it) rest).2.lastPage = s.lastPage
      rw [ih_l, co_l]
    · show (consumeItems rm N true (consumeOne rm N true s it) rest).2.ckpt = s.ckpt
      rw [ih_c, co_c]
    · intro x hx
      exact ih_mem x (hmem1 x hx)
    · intro x hx
      unfold rowsOf at hx
      rw [List.filterMap_cons] at hx
      cases hrm : rm it with
      | none =>
        rw [hrm] at hx
        exact ih_new x hx
      | some r =>
        rw [hrm] at hx
        rcases List.mem_cons.mp hx with hx | hx
        · subst hx
          exact ih_mem x (consumeOne_new rm N s it x hrm)
        · exact ih_new x hx
    · intro t ht
      rcases List.mem_cons.mp ht with ht | ht
      · subst ht
        exact ⟨⟨co_f, co_l, co_c⟩, hmem1⟩
      · obtain ⟨⟨tf, tl, tc⟩, tmem⟩ := ih_tr t ht
        refine ⟨⟨?_, ?_, ?_⟩, ?_⟩
        · rw [tf, co_f]
        · rw [tl, co_l]
        · rw [tc, co_c]
        · intro x hx
          exact tmem x (hmem1 x hx)

/-- A crash-safe state: every fetched row is in the volatile buffer, in the
durable chunks, or re-fetchable from the checkpoint a rerun would use. -/
def SafeState (api : String → Page) (rm : Nat → Option Nat) (start : String)
    (s : PassState) : Prop :=
  ∀ r ∈ rowsOf rm s.fetched,
    r ∈ s.buffer ∨ r ∈ durableRows s ∨ Refetchable api rm start s r

/-- Re-fetchability depends only on the checkpoint field. -/
theorem refetch_of_ckpt_eq {api : String → Page} {rm : Nat → Option Nat}
    {start : String} {s t : PassState} {r : Nat} (h : t.ckpt = s.ckpt)
    (hr : Refetchable api rm start s r) : Refetchable api rm start t r := by
  obtain ⟨n, hn⟩ := hr
  exact ⟨n, by rw [h]; exact hn⟩

/-- Every row of the page fetched at the rerun cursor is re-fetchable. -/
theorem page_refetchable (api : String → Page) (rm : Nat → Option Nat)
    (start : String) (s : PassState) (c : String)
    (hck : rerunCursor start s.ckpt = c) :
    ∀ x ∈ rowsOf rm (api c).items, Refetchable api rm start s x := by
  intro x hx
  refine ⟨1, ?_⟩
  rw [hck]
  show x ∈ rowsOf rm ((api c).items ++ _)
  unfold rowsOf
  rw [List.filterMap_append]
  exact List.mem_append_left _ hx

/-- The loop preserves crash safety at every recorded state: entering the
loop with the checkpoint matching the loop cursor and with every previously
fetched row already buffered or durable, every state of the remaining trace
is safe. -/
theorem runLoop_safe (api : String → Page) (rm : Nat → Option Nat)
    (N : Nat) (start : String) :
    ∀ (fuel : Nat) (next : Option String) (s : PassState),
      s.ckpt = some next →
      (∀ x ∈ rowsOf rm s.fetched, x ∈ s.buffer ∨ x ∈ durableRows s) →
      ∀ t ∈ (runLoop api rm N true fuel next s).1, SafeState api rm start t := by
  intro fuel
  induction fuel with
  | zero =>
    intro next s hck hmain t ht
    simp only [runLoop] at ht
    revert ht
    cases hn : truthyCursor next with
    | none =>
      intro ht
      have ht' : t = finalFlush true s := by simpa using ht
      subst ht'
      obtain ⟨ff, fl, fc, fb, fd⟩ := finalFlush_fields s
      intro r hr
      rw [ff] at hr
      rcases hmain r hr with h | h
      · exact Or.inl (fb ▸ h)
      · exact Or.inr (Or.inl (fd r h))
    | some c =>
      intro ht
      simp at ht
  | succ fuel ih =>
    intro next s hck hmain t ht
    simp only [runLoop] at ht
    revert ht
    cases hn : truthyCursor next with
    | none =>
      intro ht
      have ht' : t = finalFlush true s := by simpa using ht
      subst ht'
      obtain ⟨ff, fl, fc, fb, fd⟩ := finalFlush_fields s
      intro r hr
      rw [ff] at hr
      rcases hmain r hr with h | h
      · exact Or.inl (fb ▸ h)
      · exact Or.inr (Or.inl (fd r h))
    | some c =>
      intro ht
      have hrc : rerunCursor start s.ckpt = c := by
        rw [hck]
        show (match truthyCursor next with
              | some x => x
              | none => start) = c
        rw [hn]
      -- the freshly fetched state
      have hsafe1 : SafeState api rm start
          { s with fetched := s.fetched ++ (api c).items, lastPage := (api c).items } := by
        intro r hr
        unfold rowsOf at hr
        rw [List.filterMap_append] at hr
        rcases List.mem_append.mp hr with hr | hr
        · rcases hmain r hr with h | h
          · exact Or.inl h
          · exact Or.inr (Or.inl h)
        · exact Or.inr (Or.inr (page_refetchable api rm start _ c hrc r hr))
      by_cases hemp : ((api c).items.isEmpty) = true
      · simp only [hemp, if_true] at ht
        rcases List.mem_cons.mp ht with ht | ht
        · subst ht
          exact hsafe1
        · simp only [List.mem_singleton] at ht
          subst ht
          obtain ⟨ff, fl, fc, fb, fd⟩ := finalFlush_fields
            { s with fetched := s.fetched ++ (api c).items, lastPage := (api c).items }
          intro r hr
          rw [ff] at hr
          rcases hsafe1 r hr with h | h | h
          · refine Or.inl ?_
            rw [fb]
            exact h
          · exact Or.inr (Or.inl (fd r h))
          · exact Or.inr (Or.inr (refetch_of_ckpt_eq fc h))
      · simp only [hemp, Bool.false_eq_true, if_false] at ht
        set s1 : PassState :=
          { s with fetched := s.fetched ++ (api c).items, lastPage := (api c).items } with hs1
        obtain ⟨⟨sp_f, sp_l, sp_c⟩, sp_mem, sp_new, sp_tr⟩ :=
          consumeItems_spec rm N (api c).items s1
        rcases List.mem_cons.mp ht with ht | ht
        · subst ht
          exact hsafe1
        · rcases List.mem_append.mp ht with ht | ht
          · rcases List.mem_append.mp ht with ht | ht
            · -- an intermediate consumption state
              obtain ⟨⟨tf, tl, tc⟩, tmem⟩ := sp_tr t ht
              intro r hr
              rw [tf] at hr
              rcases hsafe1 r hr with h | h | h
              · rcases tmem r (Or.inl h) with h2 | h2
                · exact Or.inl h2
                · exact Or.inr (Or.inl h2)
              · rcases tmem r (Or.inr h) with h2 | h2
                · exact Or.inl h2
                · exact Or.inr (Or.inl h2)
              · exact Or.inr (Or.inr (refetch_of_ckpt_eq tc h))
            · -- the post-checkpoint state s3
              have ht2 := List.eq_of_mem_singleton ht
              subst ht2
              intro r hr
              have hr0 : r ∈ rowsOf rm (consumeItems rm N true s1 (api c).items).2.fetched := hr
              rw [sp_f] at hr0
              have hr1 : r ∈ rowsOf rm (s.fetched ++ (api c).items) := hr0
              unfold rowsOf at hr1
              rw [List.filterMap_append] at hr1
              rcases List.mem_append.mp hr1 with h | h
              · rcases hmain r h with h2 | h2
                · rcases sp_mem r (Or.inl h2) with h3 | h3
                  · exact Or.inl h3
                  · exact Or.inr (Or.inl h3)
                · rcases sp_mem r (Or.inr h2) with h3 | h3
                  · exact Or.inl h3
                  · exact Or.inr (Or.inl h3)
              · rcases sp_new r h with h3 | h3
                · exact Or.inl h3
                · exact Or.inr (Or.inl h3)
          · -- inside the recursive loop call
            apply ih (api c).next _ rfl ?_ t ht
            intro x hx
            have hx0 : x ∈ rowsOf rm (consumeItems rm N true s1 (api c).items).2.fetched := hx
            rw [sp_f] at hx0
            have hx1 : x ∈ rowsOf rm (s.fetched ++ (api c).items) := hx0
            unfold rowsOf at hx1
            rw [List.filterMap_append] at hx1
            rcases List.mem_append.mp hx1 with h | h
            · rcases hmain x h with h2 | h2
              · exact sp_mem x (Or.inl h2)
              · exact sp_mem x (Or.inr h2)
            · exact sp_new x h

/-- Every state of a pass trace (with an incremental save directory
configured) is crash-safe in the buffer-bounded sense. -/
theorem runPass_safe (api : String → Page) (rm : Nat → Option Nat)
    (N : Nat) (start : String) (fuel : Nat) :
    ∀ t ∈ (runPass api rm N true start fuel).1, SafeState api rm start t := by
  intro t ht
  unfold runPass at ht
  dsimp only at ht
  obtain ⟨⟨sp_f, sp_l, sp_c⟩, sp_mem, sp_new, sp_tr⟩ :=
    consumeItems_spec rm N (api start).items
      { initState with fetched := (api start).items, lastPage := (api start).items }
  have hsafe1 : SafeState api rm start
      { initState with fetched := (api start).items, lastPage := (api start).items } := by
    intro r hr
    exact Or.inr (Or.inr (page_refetchable api rm start
      { initState with fetched := (api start).items, lastPage := (api start).items }
      start rfl r hr))
  rcases List.mem_cons.mp ht with ht | ht
  · subst ht
    intro r hr
    exact absurd hr (List.not_mem_nil r)
  · rcases List.mem_cons.mp ht with ht | ht
    · subst ht
      exact hsafe1
    · rcases List.mem_append.mp ht with ht | ht
      · rcases List.mem_append.mp ht with ht | ht
        · -- an intermediate consumption state of the first page
          obtain ⟨⟨tf, tl, tc⟩, tmem⟩ := sp_tr t ht
          intro r hr
          rw [tf] at hr
          exact Or.inr (Or.inr (refetch_of_ckpt_eq tc
            (page_refetchable api rm start
              { initState with fetched := (api start).items, lastPage := (api start).items }
              start rfl r hr)))
        · -- the state right after the first checkpoint save
          have ht2 := List.eq_of_mem_singleton ht
          subst ht2
          intro r hr
          have hr0 : r ∈ rowsOf rm (consumeItems rm N true
              { initState with fetched := (api start).items, lastPage := (api start).items }
              (api start).items).2.fetched := hr
          rw [sp_f] at hr0
          rcases sp_new r hr0 with h | h
          · exact Or.inl h
          · exact Or.inr (Or.inl h)
      · -- inside the loop over the remaining pages
        apply runLoop_safe api rm N start fuel (api start).next _ rfl ?_ t ht
        intro x hx
        have hx0 : x ∈ rowsOf rm (consumeItems rm N true
            { initState with fetched := (api start).items, lastPage := (api start).items }
            (api start).items).2.fetched := hx
        rw [sp_f] at hx0
        exact sp_new x hx0

/-- C2 amended: with an incremental save directory configured, at every
point of a pass every fetched row that is neither durable on disk nor
re-fetchable from the saved checkpoint is still in the in-memory buffer —
the data-loss window is the buffer (up to the flush threshold plus the
current page), NOT the single most-recently-fetched page, because the
checkpoint advances after every page whether or not the buffer has been
flushed. -/
theorem C2_loss_bounded_by_buffer (api : String → Page) (rm : Nat → Option Nat)
    (N : Nat) (start : String) (fuel : Nat) :
    ∀ s ∈ (runPass api rm N true start fuel).1,
      ∀ r ∈ rowsOf rm s.fetched, r ∉ durableRows s →
        ¬ Refetchable api rm start s r → r ∈ s.buffer := by
  intro s hs r hr hnd hnr
  rcases runPass_safe api rm N start fuel s hs r hr with h | h | h
  · exact h
  · exact absurd h hnd
  · exact absurd h hnr

/-- The three-page API of the C2 counterexample: two one-item pages followed
by an empty page. -/
def apiC2 : String → Page := fun c =>
  if c = "1" then { items := [10], next := some "c2" }
  else if c = "c2" then { items := [20], next := some "c3" }
  else { items := [], next := none }

/-- The crash point of the C2 counterexample: both pages fetched and
buffered (flush threshold 10 not reached), nothing flushed, and the
checkpoint already advanced to cursor "c3". -/
def sBad : PassState :=
  { fetched := [10, 20], lastPage := [20], buffer := [10, 20], chunks := [],
    ckpt := some (some "c3") }

/-- Helper: nothing is reachable from cursor "c3" of the counterexample API. -/
theorem reach_apiC2_c3 : ∀ n, reachItems apiC2 n "c3" = [] := by
  intro n
  cases n with
  | zero => rfl
  | succ n => rfl

/-- C2 counterexample: right after the checkpoint for page 2 is saved
(pointing at the empty page "c3"), the first page's row 10 is in the
volatile buffer only: it is fetched, not durable, not re-fetchable from the
saved cursor — and it is NOT in the most-recently-fetched page, refuting the
claimed one-page loss bound (`stream_datacite_with_resume` saves the
checkpoint after every page regardless of the consumer's flush threshold,
harvest_datacite.py:323-326 versus 415). -/
theorem C2_counterexample : ¬ LossBoundedByLastPage apiC2 some 10 true "1" 5 := by
  intro h
  have hmem : sBad ∈ (runPass apiC2 some 10 true "1" 5).1 := by decide
  refine absurd (h sBad hmem 10 (by decide) (by decide) ?_) (by decide)
  rintro ⟨n, hn⟩
  have hc : rerunCursor "1" sBad.ckpt = "c3" := rfl
  rw [hc, reach_apiC2_c3 n] at hn
  exact absurd hn (by decide)

/-- Witness for C2: the amended bound applied at the counterexample crash
point — row 10 is indeed still in the buffer there. -/
theorem C2_loss_bounded_by_buffer_witness : (10 : Nat) ∈ sBad.buffer := by
  apply C2_loss_bounded_by_buffer apiC2 some 10 "1" 5 sBad (by decide) 10
    (by decide) (by decide)
  rintro ⟨n, hn⟩
  have hc : rerunCursor "1" sBad.ckpt = "c3" := rfl
  rw [hc, reach_apiC2_c3 n] at hn
  exact absurd hn (by decide)

end DataciteHarvester
